import Mathlib

/-!
# htop-clone: a shallow embedding of the sampling core

The C++ sources (`processor.cpp`, `process.cpp`, `system.cpp`, `uid_resolver.cpp`)
are embedded as pure Lean functions.

Conventions of the embedding:

* `std::string` and file contents are `List Char` (abbreviated `Str`); a file that
  cannot be opened is `none`.
* `long`, `long long` and `int` values are `Int`.  The bounds of the machine types
  are made explicit where the library clamps to them (stream extraction, `stoi`);
  signed overflow of the arithmetic itself is undefined behaviour in C++ and is
  not part of the model.  `std::size_t` positions are `Nat` with wrap-around at
  `2 ^ 64` where the code relies on it (`npos + 1`).
* `system_clock::time_point` is the `Int` count of nanoseconds since the epoch;
  every call of `system_clock::now()` is an explicit argument.
* A `float` result is a `FloatVal`: the exact rational value of the quotient the
  code evaluates (rounding to the nearest representable number is abstracted),
  or one of the IEEE special values produced by a division by zero.
* A function that can throw returns `Except Error _`.
* The content of the `/proc` and `/etc` files is a snapshot (`ProcFs`) that is
  fixed for the duration of one call.
-/

namespace HtopClone

/-- Text as a sequence of characters (`std::string`). -/
abbrev Str := List Char

/-- The exceptions the program can raise (`errors.h` and the standard library). -/
inductive Error where
  | OpenFileError (file_path : Str)
  | UnexpectedFormatError (description : Str)
  | logic_error (what : Str)
  | invalid_argument
  | out_of_range
  deriving DecidableEq, Repr

deriving instance DecidableEq for Except

/-- The value of a floating point quotient: an exact rational, or an IEEE special value. -/
inductive FloatVal where
  | finite (q : ℚ)
  | posInf
  | negInf
  | nan
  deriving DecidableEq

/-- The expression `a * 1.0 / b` for integers `a` and `b`, evaluated in floating point. -/
def FloatVal.div (a b : Int) : FloatVal :=
  if b = 0 then
    if a = 0 then FloatVal.nan else if 0 < a then FloatVal.posInf else FloatVal.negInf
  else FloatVal.finite ((a : ℚ) / (b : ℚ))

/-! ## Standard library: streams and strings -/

/-- Smallest value of a 64-bit `long`. -/
def LONG_MIN : Int := -(2 ^ 63)

/-- Largest value of a 64-bit `long`. -/
def LONG_MAX : Int := 2 ^ 63 - 1

/-- Smallest value of a 32-bit `int`. -/
def INT_MIN : Int := -(2 ^ 31)

/-- Largest value of a 32-bit `int`. -/
def INT_MAX : Int := 2 ^ 31 - 1

/-- The value `std::string::npos`. -/
def npos : Nat := 2 ^ 64 - 1

/-- Addition of `std::size_t` values. -/
def sizeAdd (a b : Nat) : Nat := (a + b) % 2 ^ 64

/-- The classification `std::isspace` in the "C" locale. -/
def isspace (c : Char) : Bool :=
  c.toNat = 32 || (9 ≤ c.toNat && c.toNat ≤ 13)

/-- The classification `std::isdigit`. -/
def isdigit (c : Char) : Bool :=
  48 ≤ c.toNat && c.toNat ≤ 57

/-- Value of a run of decimal digits. -/
def digitsToNat (ds : List Char) : Nat :=
  ds.foldl (fun n c => 10 * n + (c.toNat - 48)) 0

/-- An input string stream: the characters not yet extracted, and whether the stream
is still `good()` (neither `eofbit` nor `failbit` is set). -/
structure IStream where
  buf : Str
  good : Bool
  deriving DecidableEq, Repr

/-- A fresh `std::istringstream` over `line`. -/
def IStream.ofLine (line : Str) : IStream := ⟨line, true⟩

/-- Drop characters up to and including the first `delim`; `none` when there is none. -/
def dropThrough (delim : Char) : Str → Option Str
  | [] => none
  | c :: cs => if c = delim then some cs else dropThrough delim cs

/-- The call `stream.ignore(numeric_limits<streamsize>::max(), delim)`: on a good stream
characters are discarded up to and including `delim`; reaching the end sets `eofbit`.
A stream that is not good is left alone. -/
def IStream.ignore (s : IStream) (delim : Char) : IStream :=
  if s.good then
    match dropThrough delim s.buf with
    | some rest => ⟨rest, true⟩
    | none => ⟨[], false⟩
  else s

/-- The extraction `stream >> v` for a signed integer type with range `[lo, hi]`, where
`cur` is the value `v` holds before the call.

* On a stream that is not good the extraction fails and `v` keeps `cur`.
* Leading white space is skipped; if the input ends there, the extraction fails and
  `v` keeps `cur`.
* An optional sign and the longest run of decimal digits are consumed.  Without a
  digit `v` becomes `0` and the stream fails; a value outside `[lo, hi]` is clamped
  and the stream fails.
* After a successful extraction the stream stays good only if input remains
  (`eofbit` is set when the digits run to the end). -/
def IStream.extract (lo hi : Int) (s : IStream) (cur : Int) : Int × IStream :=
  if s.good then
    match s.buf.dropWhile isspace with
    | [] => (cur, ⟨[], false⟩)
    | c :: cs =>
      let body := if c = '-' ∨ c = '+' then cs else c :: cs
      let ds := body.takeWhile isdigit
      let rest := body.dropWhile isdigit
      if ds = [] then (0, ⟨rest, false⟩)
      else
        let n : Int := (digitsToNat ds : Int)
        let v : Int := if c = '-' then -n else n
        if v < lo then (lo, ⟨rest, false⟩)
        else if hi < v then (hi, ⟨rest, false⟩)
        else (v, ⟨rest, !rest.isEmpty⟩)
  else (cur, s)

/-- The extraction `stream >> v` for `long` and `long long`. -/
def IStream.extractLong (s : IStream) (cur : Int) : Int × IStream :=
  IStream.extract LONG_MIN LONG_MAX s cur

/-- The extraction `stream >> v` for `int`. -/
def IStream.extractInt (s : IStream) (cur : Int) : Int × IStream :=
  IStream.extract INT_MIN INT_MAX s cur

/-- The call `std::getline(file, line)` at the start of `content`: the first line
without its newline and the remaining content; `none` when nothing can be extracted. -/
def getline : Str → Option (Str × Str)
  | [] => none
  | c :: cs =>
    some ((c :: cs).takeWhile (fun x => x != '\n'),
          ((c :: cs).dropWhile (fun x => x != '\n')).drop 1)

/-! ## processor.cpp -/

/-- The ten counters of the first line of `/proc/stat`. -/
structure CpuTimes where
  user : Int
  nice : Int
  system : Int
  idle : Int
  iowait : Int
  irq : Int
  softirq : Int
  steal : Int
  guest : Int
  guest_nice : Int
  deriving DecidableEq, Repr

/-- The parsing part of `Processor::Utilization` (processor.cpp lines 53-75): the
prefix token is discarded and ten `long` variables, each initialised to `0`, are
extracted in turn. -/
def parseCpuLine (line : Str) : CpuTimes :=
  let s := (IStream.ofLine line).ignore ' '
  let (user, s) := s.extractLong 0
  let (nice, s) := s.extractLong 0
  let (system, s) := s.extractLong 0
  let (idle, s) := s.extractLong 0
  let (iowait, s) := s.extractLong 0
  let (irq, s) := s.extractLong 0
  let (softirq, s) := s.extractLong 0
  let (steal, s) := s.extractLong 0
  let (guest, s) := s.extractLong 0
  let (guest_nice, _) := s.extractLong 0
  ⟨user, nice, system, idle, iowait, irq, softirq, steal, guest, guest_nice⟩

/-- The time the processor was active (`operation_time`). -/
def CpuTimes.operation_time (t : CpuTimes) : Int :=
  t.user + t.nice + t.system + t.irq + t.softirq + t.steal

/-- The time the processor was idle (`idle_time`). -/
def CpuTimes.idle_time (t : CpuTimes) : Int :=
  t.idle + t.iowait

/-- The total processor time (`total_time`). -/
def CpuTimes.total_time (t : CpuTimes) : Int :=
  t.operation_time + t.idle_time

/-- The class `Processor` (processor.h): the counters of the previous measurement. -/
structure Processor where
  previous_total_time_ : Int
  previous_idle_time_ : Int
  deriving DecidableEq, Repr

/-- A freshly constructed `Processor`: both members are value-initialised. -/
def Processor.fresh : Processor := ⟨0, 0⟩

/-- The first line of `/proc/stat` as `Processor::Utilization` reads it
(processor.cpp lines 13-52); both failures throw `std::logic_error`. -/
def readStatLine (stat_file : Option Str) : Except Error Str :=
  match stat_file with
  | none => Except.error (Error.logic_error "Could not open the stat file: /proc/stat".toList)
  | some content =>
    match getline content with
    | none =>
      Except.error
        (Error.logic_error "Could not read first line from stat file: /proc/stat".toList)
    | some (line, _) => Except.ok line

/-- The method `Processor::Utilization` (processor.cpp lines 10-94): the returned usage
and the updated object, or the exception thrown. -/
def Processor.Utilization (self : Processor) (stat_file : Option Str) :
    Except Error (FloatVal × Processor) :=
  match readStatLine stat_file with
  | Except.error e => Except.error e
  | Except.ok line =>
    let t := parseCpuLine line
    let operation_time := t.user + t.nice + t.system + t.irq + t.softirq + t.steal
    let idle_time := t.idle + t.iowait
    let total_time := operation_time + idle_time
    let total_delta := total_time - self.previous_total_time_
    let idle_delta := idle_time - self.previous_idle_time_
    Except.ok (FloatVal.div (total_delta - idle_delta) total_delta, ⟨total_time, idle_time⟩)

/-! ## uid_resolver.cpp -/

/-- The call `s.find(c, pos)` scanning the characters from position `i` on. -/
def findIdxFrom (c : Char) : Str → Nat → Nat
  | [], _ => npos
  | x :: xs, i => if x = c then i else findIdxFrom c xs (i + 1)

/-- The call `s.find(c, pos)`: the first position at or after `pos` holding `c`, or `npos`. -/
def find (s : Str) (c : Char) (pos : Nat) : Nat :=
  findIdxFrom c (s.drop pos) pos

/-- The call `s.substr(pos, count)`; it throws `std::out_of_range` when `pos > s.size()`. -/
def substr (s : Str) (pos count : Nat) : Except Error Str :=
  if s.length < pos then Except.error Error.out_of_range
  else Except.ok ((s.drop pos).take count)

/-- The conversion done by `strtol` in base 10 with the result range `[lo, hi]`, as
`std::stoi` and `std::stol` use it: leading white space is skipped, an optional sign and
the longest run of digits are read, and what follows is ignored.  Without a digit
`std::invalid_argument` is thrown, outside the range `std::out_of_range`. -/
def stoiRange (lo hi : Int) (s : Str) : Except Error Int :=
  match s.dropWhile isspace with
  | [] => Except.error Error.invalid_argument
  | c :: cs =>
    let body := if c = '-' ∨ c = '+' then cs else c :: cs
    let ds := body.takeWhile isdigit
    if ds = [] then Except.error Error.invalid_argument
    else
      let n : Int := (digitsToNat ds : Int)
      let v : Int := if c = '-' then -n else n
      if v < lo ∨ hi < v then Except.error Error.out_of_range else Except.ok v

/-- The function `std::stoi`. -/
def stoi (s : Str) : Except Error Int := stoiRange INT_MIN INT_MAX s

/-- The lines a loop `while (std::getline(file, line))` sees on `content`. -/
def getlines : Str → List Str
  | [] => []
  | c :: cs =>
    if c = '\n' then [] :: getlines cs
    else
      match getlines cs with
      | [] => [[c]]
      | l :: ls => (c :: l) :: ls

/-- A `std::unordered_map<int, std::string>` as an association list with distinct keys. -/
abbrev UidMap := List (Int × Str)

/-- The lookup `map.find(key)`; `none` stands for `map.end()`. -/
def UidMap.find : UidMap → Int → Option Str
  | [], _ => none
  | (k, v) :: es, key => if k = key then some v else UidMap.find es key

/-- The assignment `map[key] = value`. -/
def UidMap.assign (m : UidMap) (key : Int) (value : Str) : UidMap :=
  (key, value) :: m.filter (fun e => e.1 != key)

/-- One iteration of the loop of `BuildUidsToUserNameMap` (uid_resolver.cpp lines 25-30). -/
def passwdLine (uid_to_names : UidMap) (line : Str) : Except Error UidMap :=
  let delimiter_pos := find line ':' 0
  match substr line 0 delimiter_pos with
  | Except.error e => Except.error e
  | Except.ok username =>
    let delimiter_pos := find line ':' (sizeAdd delimiter_pos 1)
    match substr line (sizeAdd delimiter_pos 1) (find line ':' (sizeAdd delimiter_pos 1)) with
    | Except.error e => Except.error e
    | Except.ok field =>
      match stoi field with
      | Except.error e => Except.error e
      | Except.ok uid => Except.ok (uid_to_names.assign uid username)

/-- The loop of `BuildUidsToUserNameMap` over the lines of the file. -/
def passwdLines : UidMap → List Str → Except Error UidMap
  | m, [] => Except.ok m
  | m, line :: rest =>
    match passwdLine m line with
    | Except.error e => Except.error e
    | Except.ok m1 => passwdLines m1 rest

/-- The function `BuildUidsToUserNameMap` (uid_resolver.cpp lines 12-33) on the content
of `/etc/passwd`. -/
def BuildUidsToUserNameMap (passwd : Option Str) : Except Error UidMap :=
  match passwd with
  | none => Except.error (Error.OpenFileError "/etc/passwd".toList)
  | some content => passwdLines [] (getlines content)

/-- The class `UidResolver` (uid_resolver.h). -/
structure UidResolver where
  uid_to_names_ : UidMap
  deriving DecidableEq, Repr

/-- The constructor `UidResolver::UidResolver`. -/
def UidResolver.construct (passwd : Option Str) : Except Error UidResolver :=
  match BuildUidsToUserNameMap passwd with
  | Except.error e => Except.error e
  | Except.ok m => Except.ok ⟨m⟩

/-- What a call of `UidResolver::FetchUserName` produces: the returned optional name, the
object after the call, and the number of calls of `BuildUidsToUserNameMap` it made. -/
structure FetchResult where
  name : Option Str
  resolver : UidResolver
  rebuilds : Nat
  deriving DecidableEq, Repr

/-- The method `UidResolver::FetchUserName` (uid_resolver.cpp lines 38-50). -/
def UidResolver.FetchUserName (self : UidResolver) (passwd : Option Str) (uid : Int) :
    Except Error FetchResult :=
  let rebuilt : Except Error (UidMap × Nat) :=
    if self.uid_to_names_.find uid = none then
      match BuildUidsToUserNameMap passwd with
      | Except.error e => Except.error e
      | Except.ok fresh => Except.ok (fresh, 1)
    else Except.ok (self.uid_to_names_, 0)
  match rebuilt with
  | Except.error e => Except.error e
  | Except.ok (uid_to_names, n) =>
    if uid_to_names.find uid = none then Except.ok ⟨none, ⟨uid_to_names⟩, n⟩
    else Except.ok ⟨uid_to_names.find uid, ⟨uid_to_names⟩, n⟩

/-! ## process.cpp -/

/-- The files the program reads, as one snapshot: the entries of `/proc` (name and
whether it is a directory), the per-process files `/proc/<pid>/stat`,
`/proc/<pid>/cmdline` and `/proc/<pid>/status`, the identity database `/etc/passwd`,
and the tick rate `sysconf(_SC_CLK_TCK)`.  A file that cannot be opened is `none`. -/
structure ProcFs where
  proc_dir : Option (List (Str × Bool))
  stat : Int → Option Str
  cmdline : Int → Option Str
  status : Int → Option Str
  passwd : Option Str
  clk_tck : Int

/-- A number of consecutive calls `stream.ignore(max, delim)`. -/
def IStream.ignoreN : Nat → IStream → Char → IStream
  | 0, s, _ => s
  | n + 1, s, delim => IStream.ignoreN n (s.ignore delim) delim

/-- The function `CalculateProcessStartTime` (process.cpp lines 35-63). -/
def CalculateProcessStartTime (fs : ProcFs) (pid : Int) (system_boot_time : Int) : Int :=
  match fs.stat pid with
  | none => system_boot_time
  | some content =>
    match getline content with
    | none => system_boot_time
    | some (line, _) =>
      let stream := IStream.ignoreN 21 (IStream.ofLine line) ' '
      let (start_time, _) := stream.extractLong 0
      let start_time := Int.tdiv start_time fs.clk_tck
      system_boot_time + start_time * 1000000000

/-- The function `FetchCommandLine` (process.cpp lines 69-86). -/
def FetchCommandLine (fs : ProcFs) (pid : Int) : Str :=
  match fs.cmdline pid with
  | none => "-".toList
  | some content =>
    match getline content with
    | none => "-".toList
    | some (line, _) => line

/-- The text `std::format("UID(\x7b\x7d)", uid)`. -/
def uidLabel (uid : Int) : Str :=
  "UID(".toList ++ (toString uid).toList ++ ")".toList

/-- The body of the loop of `FetchProcessOwnerUidAndName` for a line that starts with
`Uid:` (process.cpp lines 106-111). -/
def ownerFromUidLine (passwd : Option Str) (uid_resolver : UidResolver) (line : Str) :
    Except Error ((Int × Str) × UidResolver) :=
  match substr line 5 npos with
  | Except.error e => Except.error e
  | Except.ok field =>
    let (uid, _) := (IStream.ofLine field).extractInt 0
    match uid_resolver.FetchUserName passwd uid with
    | Except.error e => Except.error e
    | Except.ok r => Except.ok ((uid, r.name.getD (uidLabel uid)), r.resolver)

/-- The function `FetchProcessOwnerUidAndName` (process.cpp lines 90-115); the resolver is
returned as the call leaves it. -/
def FetchProcessOwnerUidAndName (fs : ProcFs) (pid : Int) (uid_resolver : UidResolver) :
    Except Error ((Int × Str) × UidResolver) :=
  match fs.status pid with
  | none => Except.ok ((0, "-".toList), uid_resolver)
  | some content =>
    match (getlines content).find? (fun line => line.take 4 == "Uid:".toList) with
    | some line => ownerFromUidLine fs.passwd uid_resolver line
    | none => Except.ok ((0, "-".toList), uid_resolver)

/-- The class `Process` (process.h). -/
structure Process where
  pid_ : Int
  boot_time_ : Int
  process_start_time_ : Int
  command_line_ : Str
  uid_ : Int
  username_ : Str
  last_cpu_utilization_check_ : Int
  last_cpu_time_spent_ms_ : Int
  deriving DecidableEq, Repr

/-- The constructor `Process::Process` (process.cpp lines 119-129), with the resolver as
the construction leaves it. -/
def Process.construct (fs : ProcFs) (pid : Int) (boot_time : Int) (uid_resolver : UidResolver) :
    Except Error (Process × UidResolver) :=
  match FetchProcessOwnerUidAndName fs pid uid_resolver with
  | Except.error e => Except.error e
  | Except.ok ((uid, username), resolver) =>
    Except.ok
      (⟨pid, boot_time, CalculateProcessStartTime fs pid boot_time, FetchCommandLine fs pid,
        uid, username, CalculateProcessStartTime fs pid boot_time, 0⟩, resolver)

/-- The method `Process::Pid`. -/
def Process.Pid (self : Process) : Int := self.pid_

/-- The method `Process::User`. -/
def Process.User (self : Process) : Str := self.username_

/-- The method `Process::UpTime` (process.cpp lines 229-232) when `system_clock::now()`
yields `now`: the whole seconds since the start of the process. -/
def Process.UpTime (self : Process) (now : Int) : Int :=
  Int.tdiv (now - self.process_start_time_) 1000000000

/-- The consumed ticks `Process::CpuUtilization` reads from the first line of the stat
file (process.cpp lines 162-187): `utime + stime + cutime + cstime`. -/
def totalTimeSpentTicks (line : Str) : Int :=
  let stream := IStream.ignoreN 13 (IStream.ofLine line) ' '
  let (utime, stream) := stream.extractLong 0
  let (stime, stream) := stream.extractLong 0
  let (cutime, stream) := stream.extractLong 0
  let (cstime, _) := stream.extractLong 0
  utime + stime + cutime + cstime

/-- The method `Process::CpuUtilization` (process.cpp lines 133-201): the returned value
and the object after the call.  `now_uptime` is the clock reading of the call of
`UpTime()`, `now_measured` the later one stored in `measured_at`. -/
def Process.CpuUtilization (self : Process) (fs : ProcFs) (now_uptime now_measured : Int) :
    FloatVal × Process :=
  if self.UpTime now_uptime = 0 then (FloatVal.finite 0, self)
  else
    match fs.stat self.Pid with
    | none => (FloatVal.finite 0, self)
    | some content =>
      match getline content with
      | none => (FloatVal.finite 0, self)
      | some (line, _) =>
        let measured_at := now_measured
        let total_time_spent_ticks := totalTimeSpentTicks line
        let total_time_spent_ms := Int.tdiv (1000 * total_time_spent_ticks) fs.clk_tck
        let time_since_last_measurement_ms :=
          Int.tdiv (measured_at - self.last_cpu_utilization_check_) 1000000
        let time_spent_delta := total_time_spent_ms - self.last_cpu_time_spent_ms_
        (FloatVal.div time_spent_delta time_since_last_measurement_ms,
          { self with
            last_cpu_utilization_check_ := measured_at
            last_cpu_time_spent_ms_ := total_time_spent_ms })

/-- The operator `Process::operator<` (process.cpp lines 234-243): `a.lt b` is `a < b`. -/
def Process.lt (self a : Process) : Bool :=
  if self.User = a.User then decide (self.Pid > a.Pid)
  else decide (self.uid_ > a.uid_)

/-! ## system.cpp -/

/-- The iteration order of a `std::unordered_set<int>`: `iter l` lists, in the order a
range-for visits them, the elements of the set obtained by inserting the values of `l`
one after the other into an empty set.  The order is left to the implementation of the
container, so it is a parameter of the model. -/
abbrev IterOrder := List Int → List Int

/-- What every implementation of the container guarantees of its iteration order: each
inserted value is visited, exactly once, and nothing else is. -/
structure IsIterationOrder (iter : IterOrder) : Prop where
  nodup : ∀ l, (iter l).Nodup
  mem_iff : ∀ l x, x ∈ iter l ↔ x ∈ l

/-- An iteration order as a node-based hash set yields it while every value has a bucket
of its own: a new value is linked in at the front. -/
def frontInsertOrder : IterOrder :=
  fun l => l.foldl (fun s x => if x ∈ s then s else x :: s) []

/-- The inner loop of `std::set_difference`: the first range stands at `a`, and `k` is
the algorithm on the rest of the first range. -/
def set_difference.walk (a : Int) (k : List Int → List Int) : List Int → List Int
  | [] => a :: k []
  | b :: bs =>
    if a < b then a :: k (b :: bs)
    else if b < a then set_difference.walk a k bs
    else k bs

/-- The algorithm `std::set_difference(first1, last1, first2, last2, out)` as the standard
library implements it, on the two ranges as they are enumerated: while both ranges are
non-empty, `*first1 < *first2` copies `*first1` and advances the first range,
`*first2 < *first1` advances the second range, otherwise both advance; the rest of the
first range is copied.  The result is the sequence written to `out`. -/
def set_difference : List Int → List Int → List Int
  | [], _ => []
  | a :: as, l2 => set_difference.walk a (set_difference as) l2

/-- The function `FetchProcessIds` (system.cpp lines 52-74): the pids, in the order they
are inserted into the set, of the entries of `/proc` that are directories with an
all-digit name. -/
def fetchedPids : List (Str × Bool) → Except Error (List Int)
  | [] => Except.ok []
  | (filename, is_directory) :: rest =>
    if !is_directory || filename.any (fun character => !isdigit character) then
      fetchedPids rest
    else
      match stoi filename with
      | Except.error e => Except.error e
      | Except.ok pid =>
        match fetchedPids rest with
        | Except.error e => Except.error e
        | Except.ok pids => Except.ok (pid :: pids)

/-- The function `FetchProcessIds`: the returned set, in its iteration order. -/
def FetchProcessIds (iter : IterOrder) (fs : ProcFs) : Except Error (List Int) :=
  match fs.proc_dir with
  | none =>
    Except.error (Error.logic_error "Could not find the /proc directory in this system.".toList)
  | some entries =>
    match fetchedPids entries with
    | Except.error e => Except.error e
    | Except.ok pids => Except.ok (iter pids)

/-- Insertion of one element into a sequence ordered by `Process::operator<`. -/
def orderedInsert (x : Process) : List Process → List Process
  | [] => [x]
  | y :: ys => if x.lt y then x :: y :: ys else y :: orderedInsert x ys

/-- The call `std::sort(processes_.begin(), processes_.end())`, as an insertion sort with
`Process::operator<`.  The standard fixes the result of `std::sort` only up to the order of
equivalent elements, and only for a comparator that is a strict weak ordering; what the
model keeps in every case is that the result is a rearrangement of the input. -/
def std_sort (l : List Process) : List Process :=
  l.foldr orderedInsert []

/-- The class `System` (system.h). -/
structure System where
  cpu_ : Processor
  processes_ : List Process
  boot_time_ : Int
  kernel_version_ : Str
  os_name_ : Str
  uid_resolver_ : UidResolver
  deriving DecidableEq, Repr

/-- The loop `for (const int pid : pids_to_add) processes_.emplace_back(...)`
(system.cpp lines 178-180). -/
def emplaceAll (fs : ProcFs) (boot_time : Int) :
    List Int → List Process × UidResolver → Except Error (List Process × UidResolver)
  | [], acc => Except.ok acc
  | pid :: rest, (processes, uid_resolver) =>
    match Process.construct fs pid boot_time uid_resolver with
    | Except.error e => Except.error e
    | Except.ok (process, resolver) => emplaceAll fs boot_time rest (processes ++ [process], resolver)

/-- The set `pids_to_add` of `System::Processes`, in its iteration order. -/
def pidsToAdd (iter : IterOrder) (current_pids previous_pids : List Int) : List Int :=
  iter (set_difference current_pids previous_pids)

/-- The set `pids_to_remove` of `System::Processes`, in its iteration order. -/
def pidsToRemove (iter : IterOrder) (current_pids previous_pids : List Int) : List Int :=
  iter (set_difference previous_pids current_pids)

/-- The removal step of `System::Processes` (system.cpp lines 167-175). -/
def removeObsolete (pids_to_remove : List Int) (processes : List Process) : List Process :=
  if pids_to_remove.isEmpty then processes
  else processes.filter (fun process => !(pids_to_remove.contains process.Pid))

/-- The method `System::Processes` (system.cpp lines 140-184): the object after the call,
whose `processes_` is the returned collection, or the exception thrown. -/
def System.Processes (iter : IterOrder) (fs : ProcFs) (self : System) : Except Error System :=
  match FetchProcessIds iter fs with
  | Except.error e => Except.error e
  | Except.ok current_pids =>
    let previous_pids := iter (self.processes_.map Process.Pid)
    let pids_to_add := pidsToAdd iter current_pids previous_pids
    let pids_to_remove := pidsToRemove iter current_pids previous_pids
    let kept := removeObsolete pids_to_remove self.processes_
    match emplaceAll fs self.boot_time_ pids_to_add (kept, self.uid_resolver_) with
    | Except.error e => Except.error e
    | Except.ok (processes, resolver) =>
      Except.ok { self with processes_ := std_sort processes, uid_resolver_ := resolver }

/-! ## Concrete inputs -/

/-- A first line of `/proc/stat` with total 1000 and idle 400. -/
def cpuLine1000 : Str := "cpu  500 20 60 380 20 10 5 5 0 0".toList

/-- A first line of `/proc/stat` with total 1500 and idle 550. -/
def cpuLine1500 : Str := "cpu  800 30 90 520 30 15 8 7 0 0".toList

/-- A `/proc/stat` file whose first line is `cpuLine1000`. -/
def statFile1000 : Option Str := some (cpuLine1000 ++ "\nintr 1 2\nbtime 10\n".toList)

/-- A `/proc/stat` file whose first line is `cpuLine1500`. -/
def statFile1500 : Option Str := some (cpuLine1500 ++ "\nintr 1 2\nbtime 10\n".toList)

/-- A first line of `/proc/<pid>/stat` whose four consumed-time fields sum to 130 ticks,
with start time 300 ticks. -/
def statLine130 : Str :=
  "7 (cat) S 1 7 7 0 -1 4194304 90 0 0 0 70 40 15 5 20 0 1 0 300 2650112 130".toList

/-- A snapshot in which every process has the stat line `statLine130`, no command line
and no status file, the identity database is unreadable, and the tick rate is 100. -/
def fsStat130 : ProcFs :=
  ⟨none, fun _ => some (statLine130 ++ "\n".toList), fun _ => none, fun _ => none, none, 100⟩

/-- A process started at time 0 whose last measurement, at 5 s, read 1000 ms. -/
def processAt1000 : Process :=
  ⟨7, 0, 0, "-".toList, 0, "-".toList, 5000000000, 1000⟩

/-- A mapping that knows the users 0 and 1000. -/
def resolverKnown : UidResolver :=
  ⟨[(1000, "alice".toList), (0, "root".toList)]⟩

/-- An identity database with the users 0, 1 and 1001. -/
def passwdThree : Option Str :=
  some ("root:x:0:0:root:/root:/bin/bash\n" ++
    "daemon:x:1:1:daemon:/usr/sbin:/usr/sbin/nologin\n" ++
    "bob:x:1001:1001:Bob,,,:/home/bob:/bin/bash\n").toList

/-- The mapping `BuildUidsToUserNameMap` builds from `passwdThree`. -/
def freshThree : UidMap :=
  [(1001, "bob".toList), (1, "daemon".toList), (0, "root".toList)]

/-- A snapshot for the ordering of processes: process 200 runs as user 0, the status
files of the processes 150 and 300 cannot be opened (they have exited), and the identity
database is `passwdThree`. -/
def fsOwners : ProcFs :=
  ⟨none, fun _ => none, fun _ => none,
   fun pid => if pid = 200 then some "Name:\tinit\nUid:\t0\t0\t0\t0\nGid:\t0\n".toList else none,
   passwdThree, 100⟩

/-- The process 200 of `fsOwners`: owner id 0 with the name `root`. -/
def procRoot200 : Process := ⟨200, 0, 0, "-".toList, 0, "root".toList, 0, 0⟩

/-- The process 150 of `fsOwners`: the sentinel owner, id 0 with the name `-`. -/
def procGone150 : Process := ⟨150, 0, 0, "-".toList, 0, "-".toList, 0, 0⟩

/-- The process 300 of `fsOwners`: the sentinel owner, id 0 with the name `-`. -/
def procGone300 : Process := ⟨300, 0, 0, "-".toList, 0, "-".toList, 0, 0⟩

/-- A snapshot for reconciliation: `/proc` has the entries `dir`, every process has the
stat line `statLine130`, runs `cat` as user 1001, and the tick rate is 100. -/
def fsLive (dir : List (Str × Bool)) : ProcFs :=
  ⟨some dir, fun _ => some (statLine130 ++ "\n".toList), fun _ => some "cat".toList,
   fun _ => some "Name:\tcat\nUid:\t1001\t1001\t1001\t1001\n".toList, passwdThree, 100⟩

/-- The entries of `/proc` while the processes 1, 2 and 3 are live. -/
def dir123 : List (Str × Bool) :=
  [("1".toList, true), ("2".toList, true), ("3".toList, true), ("cpuinfo".toList, false),
   ("sys".toList, true)]

/-- The entries of `/proc` while the processes 2, 3 and 4 are live. -/
def dir234 : List (Str × Bool) :=
  [("2".toList, true), ("3".toList, true), ("4".toList, true), ("cpuinfo".toList, false),
   ("sys".toList, true)]

/-- A process of `fsLive` (started 3 s after boot) with the given delta state. -/
def trackedProcess (pid check spent_ms : Int) : Process :=
  ⟨pid, 0, 3000000000, "cat".toList, 1001, "bob".toList, check, spent_ms⟩

/-- A system that tracks the given processes; the boot time is 0. -/
def systemTracking (processes : List Process) : System :=
  ⟨Processor.fresh, processes, 0, "5.15.0".toList, "Linux".toList, ⟨freshThree⟩⟩

/-- The delta state of every tracked process: pid, last measurement time, last consumed
milliseconds. -/
def deltaStates (self : System) : List (Int × Int × Int) :=
  self.processes_.map
    (fun p => (p.pid_, p.last_cpu_utilization_check_, p.last_cpu_time_spent_ms_))

/-- A call of `CpuUtilization` on every tracked process, all at the clock reading `now`. -/
def measureAll (fs : ProcFs) (now : Int) (self : System) : System :=
  { self with processes_ := self.processes_.map (fun p => (p.CpuUtilization fs now now).2) }

/-- Two polls: `Processes()` while 1, 2, 3 are live, a measurement of every process at
10 s, then `Processes()` while 2, 3, 4 are live.  The result is the delta states before
and after the second `Processes()`. -/
def pollTwice (iter : IterOrder) :
    Except Error (List (Int × Int × Int) × List (Int × Int × Int)) :=
  match System.Processes iter (fsLive dir123) (systemTracking []) with
  | Except.error e => Except.error e
  | Except.ok s1 =>
    match System.Processes iter (fsLive dir234) (measureAll (fsLive dir123) 10000000000 s1) with
    | Except.error e => Except.error e
    | Except.ok s2 =>
      Except.ok (deltaStates (measureAll (fsLive dir123) 10000000000 s1), deltaStates s2)

/-! ## format.cpp, parser_helper.cpp and the remaining methods -/

/-- Subtraction of `std::size_t` values: exact when `b ≤ a`, wrapped around `2 ^ 64`
otherwise. -/
def sizeSub (a b : Nat) : Nat := if b ≤ a then a - b else (a + 2 ^ 64 - b) % 2 ^ 64

/-- The function `std::stol`. -/
def stol (s : Str) : Except Error Int := stoiRange LONG_MIN LONG_MAX s

/-- The text `std::format("\x7b\x7d", v)` of an integer. -/
def formatInt (v : Int) : Str :=
  if v < 0 then '-' :: Nat.toDigits 10 v.natAbs else Nat.toDigits 10 v.natAbs

/-- The text `std::format("\x7b:02d\x7d", v)`: the decimal digits, padded with zeros after
the sign to a width of at least two characters. -/
def formatInt02 (v : Int) : Str :=
  if v < 0 then '-' :: Nat.toDigits 10 v.natAbs
  else if (Nat.toDigits 10 v.natAbs).length < 2 then '0' :: Nat.toDigits 10 v.natAbs
  else Nat.toDigits 10 v.natAbs

/-- The function `Format::ElapsedTime` (format.cpp lines 7-10). -/
def ElapsedTime (seconds : Int) : Str :=
  formatInt02 (Int.tdiv seconds 3600) ++ ':' :: formatInt02 (Int.tdiv (Int.tmod seconds 3600) 60)
    ++ ':' :: formatInt02 (Int.tmod seconds 60)

/-- Reading an `HH:MM:SS` text back as a number of seconds: the three fields between the
colons are read as decimal numbers. -/
def readElapsedTime (text : Str) : Int :=
  let hours := text.takeWhile (fun c => c != ':')
  let rest := (text.dropWhile (fun c => c != ':')).drop 1
  let minutes := rest.takeWhile (fun c => c != ':')
  let secs := (rest.dropWhile (fun c => c != ':')).drop 1
  (digitsToNat hours : Int) * 3600 + (digitsToNat minutes : Int) * 60 + (digitsToNat secs : Int)

/-- The call `line.find(separator)` scanning from position `i` on. -/
def findStrFrom (separator : Str) : Str → Nat → Nat
  | [], i => if separator = [] then i else npos
  | c :: cs, i =>
    if (c :: cs).take separator.length = separator then i
    else findStrFrom separator cs (i + 1)

/-- The call `line.find(separator)` for a string separator. -/
def findStr (line separator : Str) : Nat := findStrFrom separator line 0

/-- A `std::unordered_map<std::string, std::string>` as an association list. -/
abbrev StrMap := List (Str × Str)

/-- The lookup `map.find(key)`; `none` stands for `map.end()`. -/
def StrMap.find : StrMap → Str → Option Str
  | [], _ => none
  | (k, v) :: es, key => if k = key then some v else StrMap.find es key

/-- The assignment `map[key] = value`. -/
def StrMap.assign (m : StrMap) (key value : Str) : StrMap :=
  (key, value) :: m.filter (fun e => e.1 != key)

/-- The call `map.at(key)`; it throws `std::out_of_range` for a missing key. -/
def StrMap.at (m : StrMap) (key : Str) : Except Error Str :=
  match m.find key with
  | some v => Except.ok v
  | none => Except.error Error.out_of_range

/-- One iteration of the loop of `ExtractKeyValuePairsFromFile`
(parser_helper.cpp lines 21-29). -/
def keyValueLine (separator : Str) (map : StrMap) (line : Str) : Except Error StrMap :=
  let separator_pos := findStr line separator
  if separator_pos = npos then
    Except.error (Error.UnexpectedFormatError
      ("Could not find the separator in the line ".toList ++ line))
  else
    match substr line 0 separator_pos with
    | Except.error e => Except.error e
    | Except.ok key =>
      match substr line (sizeAdd separator_pos separator.length) npos with
      | Except.error e => Except.error e
      | Except.ok value => Except.ok (map.assign key value)

/-- The loop of `ExtractKeyValuePairsFromFile` over the lines of the file. -/
def keyValueLines (separator : Str) : StrMap → List Str → Except Error StrMap
  | m, [] => Except.ok m
  | m, line :: rest =>
    match keyValueLine separator m line with
    | Except.error e => Except.error e
    | Except.ok m1 => keyValueLines separator m1 rest

/-- The function `parser_helper::ExtractKeyValuePairsFromFile` (parser_helper.cpp lines
12-32) on the content of the file at `file_path`. -/
def ExtractKeyValuePairsFromFile (file_path : Str) (file : Option Str) (separator : Str) :
    Except Error StrMap :=
  match file with
  | none => Except.error (Error.OpenFileError file_path)
  | some content => keyValueLines separator [] (getlines content)

/-- The conversion `std::stol(text.substr(0, text.size() - 3))` of
`System::MemoryUtilization`, which drops the suffix ` kB`. -/
def stolWithoutSuffix (text : Str) : Except Error Int :=
  match substr text 0 (sizeSub text.length 3) with
  | Except.error e => Except.error e
  | Except.ok number => stol number

/-- The method `System::MemoryUtilization` (system.cpp lines 188-207) on the content of
`/proc/meminfo`. -/
def System.MemoryUtilization (meminfo : Option Str) : Except Error FloatVal :=
  match ExtractKeyValuePairsFromFile "/proc/meminfo".toList meminfo ":".toList with
  | Except.error e => Except.error e
  | Except.ok map =>
    match map.at "MemTotal".toList with
    | Except.error e => Except.error e
    | Except.ok total_memory_kB_str =>
      match stolWithoutSuffix total_memory_kB_str with
      | Except.error e => Except.error e
      | Except.ok total_memory_kB =>
        match map.at "MemFree".toList with
        | Except.error e => Except.error e
        | Except.ok free_memory_kB_str =>
          match stolWithoutSuffix free_memory_kB_str with
          | Except.error e => Except.error e
          | Except.ok free_memory_kB =>
            Except.ok (FloatVal.div (total_memory_kB - free_memory_kB) total_memory_kB)

/-- The method `Process::Ram` (process.cpp lines 205-225). -/
def Process.Ram (self : Process) (fs : ProcFs) : Except Error Str :=
  match fs.status self.Pid with
  | none => Except.ok "-".toList
  | some content =>
    match (getlines content).find? (fun line => line.take 6 == "VmSize".toList) with
    | none => Except.ok "-".toList
    | some line =>
      match substr line 7 npos with
      | Except.error e => Except.error e
      | Except.ok field =>
        match stol field with
        | Except.error e => Except.error e
        | Except.ok memory_usage_in_kB =>
          Except.ok (formatInt (Int.tdiv memory_usage_in_kB 1024) ++ " MB".toList)

/-- Whether a floating point value is a number of the interval `[0, 1]`. -/
def FloatVal.inUnitInterval : FloatVal → Prop
  | FloatVal.finite q => 0 ≤ q ∧ q ≤ 1
  | _ => False

/-- Whether a floating point value is a number (neither NaN nor an infinity). -/
def FloatVal.isNumber : FloatVal → Bool
  | FloatVal.finite _ => true
  | _ => false

/-- The pieces of a text between its white space characters (some may be empty). -/
def splitAtSpaces : Str → List Str
  | [] => [[]]
  | c :: cs =>
    if isspace c then [] :: splitAtSpaces cs
    else
      match splitAtSpaces cs with
      | [] => [[c]]
      | t :: ts => (c :: t) :: ts

/-- The white-space separated tokens of a text. -/
def tokens (text : Str) : List Str :=
  (splitAtSpaces text).filter (fun t => !t.isEmpty)

/-- Whether a token is a decimal integer: an optional sign and at least one digit. -/
def isIntegerToken : Str → Bool
  | [] => false
  | c :: cs =>
    if c = '-' ∨ c = '+' then !cs.isEmpty && cs.all isdigit
    else (c :: cs).all isdigit

/-- The layout the specification expects of the first line of the CPU accounting source:
a first token followed by exactly ten integers. -/
def hasCpuLayout (line : Str) : Bool :=
  match tokens line with
  | [] => false
  | _ :: fields => fields.length = 10 && fields.all isIntegerToken

/-- A snapshot with malformed status files: the one of process 7 has a line that is
exactly `Uid:`, the one of process 8 has a `VmSize` line without a number. -/
def fsMalformed : ProcFs :=
  ⟨none, fun _ => none, fun _ => none,
   fun pid =>
     if pid = 7 then some "Name:\tcat\nUid:\nGid:\t0\n".toList
     else if pid = 8 then some "Name:\tcat\nVmSize:\t kB\nUid:\t0\t0\t0\t0\n".toList
     else none,
   passwdThree, 100⟩

/-- The process 8 of `fsMalformed`, owned by root. -/
def procRoot8 : Process := ⟨8, 0, 0, "-".toList, 0, "root".toList, 0, 0⟩

/-- A snapshot in which the stat file of every process opens but is empty. -/
def fsStatEmpty : ProcFs :=
  ⟨none, fun _ => some [], fun _ => none, fun _ => none, none, 100⟩

/-- A first line of `/proc/stat` that lacks the expected layout. -/
def cpuLineMalformed : Str := "cpu 1 2 three".toList

/-- A `/proc/meminfo` file with `MemTotal` 1000000 kB and `MemFree` 250000 kB. -/
def meminfoFile : Option Str :=
  some ("MemTotal:        1000000 kB\n" ++ "MemFree:          250000 kB\n" ++
    "MemAvailable:     600000 kB\n" ++ "Buffers:            9000 kB\n").toList

/-- The pairs `ExtractKeyValuePairsFromFile` reads from `meminfoFile`. -/
def meminfoMap : StrMap :=
  [("Buffers".toList, "            9000 kB".toList),
   ("MemAvailable".toList, "     600000 kB".toList),
   ("MemFree".toList, "          250000 kB".toList),
   ("MemTotal".toList, "        1000000 kB".toList)]

/-- A snapshot in which process 7 runs as user 1001, process 9 as the unknown user 4242,
and the status file of every other process has no `Uid:` line. -/
def fsUids : ProcFs :=
  ⟨none, fun _ => none, fun _ => none,
   fun pid =>
     if pid = 7 then some "Name:\tcat\nUid:\t1001\t1001\t1001\t1001\nGid:\t5\n".toList
     else if pid = 9 then some "Name:\tcat\nUid:\t4242\t4242\t4242\t4242\n".toList
     else some "Name:\tcat\n".toList,
   passwdThree, 100⟩

/-! ## Runs of the program and the shape of its inputs -/

/-- The states a `System` goes through: it starts without tracked processes, and then
`Processes()` is called (on any content of the files), or `CpuUtilization()` is called on
tracked processes (each on any content of the files and at any clock readings). -/
inductive System.Reachable (iter : IterOrder) : System → Prop where
  | start (s : System) (h : s.processes_ = []) : System.Reachable iter s
  | poll (s s1 : System) (fs : ProcFs) (hs : System.Reachable iter s)
      (h : s.Processes iter fs = Except.ok s1) : System.Reachable iter s1
  | measure (s : System) (processes : List Process) (hs : System.Reachable iter s)
      (h : List.Forall₂
        (fun p q => ∃ fs now_uptime now_measured,
          q = (p.CpuUtilization fs now_uptime now_measured).2)
        s.processes_ processes) :
      System.Reachable iter { s with processes_ := processes }

/-- The pieces of a text between the occurrences of the character `sep`. -/
def splitOnChar (sep : Char) : Str → List Str
  | [] => [[]]
  | c :: cs =>
    if c = sep then [] :: splitOnChar sep cs
    else
      match splitOnChar sep cs with
      | [] => [[c]]
      | t :: ts => (c :: t) :: ts

/-- The sum of the numbers written in the space-delimited tokens of `line` at the
0-indexed positions `positions`. -/
def tokenSum (line : Str) (positions : List Nat) : Int :=
  (positions.map
    (fun k => (digitsToNat ((splitOnChar ' ' line).getD k []) : Int))).sum

/-- A record of the identity database: the name, the second field, the numeric id and the
rest of the line. -/
structure PasswdRecord where
  name : Str
  field2 : Str
  uid : Nat
  rest : Str
  deriving DecidableEq, Repr

/-- The line `name:field2:uid:rest` of a record, with the id in decimal. -/
def PasswdRecord.line (r : PasswdRecord) : Str :=
  r.name ++ ':' :: (r.field2 ++ ':' :: (Nat.toDigits 10 r.uid ++ ':' :: r.rest))

/-- What makes the line of a record well formed: no colon in the name and in the second
field, an id in the range of `int`, and a length a `std::string` can have. -/
def PasswdRecord.wellFormed (r : PasswdRecord) : Bool :=
  r.name.all (fun c => c != ':') && r.field2.all (fun c => c != ':')
    && decide ((r.uid : Int) ≤ INT_MAX) && decide (r.line.length < npos)

/-- The name of the last record that carries the id `uid`. -/
def lastNameOf : List PasswdRecord → Int → Option Str
  | [], _ => none
  | r :: rs, uid =>
    match lastNameOf rs uid with
    | some name => some name
    | none => if (r.uid : Int) = uid then some r.name else none

/-- An identity database in which the id 0 occurs on two lines. -/
def passwdRepeated : Str :=
  ("root:x:0:0:root:/root:/bin/bash\n" ++ "bob:x:1001:1001:Bob,,,:/home/bob:/bin/bash\n" ++
    "toor:x:0:0:second root:/root:/bin/sh\n").toList

/-- The records of `passwdRepeated`. -/
def recordsRepeated : List PasswdRecord :=
  [⟨"root".toList, "x".toList, 0, "0:root:/root:/bin/bash".toList⟩,
   ⟨"bob".toList, "x".toList, 1001, "1001:Bob,,,:/home/bob:/bin/bash".toList⟩,
   ⟨"toor".toList, "x".toList, 0, "0:second root:/root:/bin/sh".toList⟩]

/-- The text `separator` occurs in `line`. -/
def Occurs (separator line : Str) : Prop :=
  ∃ before after, line = before ++ (separator ++ after)

/-- The texts `before` and `after` are what stands before and after the first occurrence
of `separator` in `line`. -/
def IsFirstSplit (separator line before after : Str) : Prop :=
  line = before ++ (separator ++ after) ∧
  ∀ before1 after1, line = before1 ++ (separator ++ after1) → before.length ≤ before1.length

/-- The text before and the text after the first occurrence of `separator` in a line;
`none` when the separator does not occur. -/
def splitAtFirst (separator : Str) : Str → Option (Str × Str)
  | [] => if separator = [] then some ([], []) else none
  | c :: cs =>
    if (c :: cs).take separator.length = separator then
      some ([], (c :: cs).drop separator.length)
    else
      match splitAtFirst separator cs with
      | none => none
      | some (before, after) => some (c :: before, after)

/-- The value of the last of the lines whose text before the first separator is `key`. -/
def lastValueIn (separator : Str) : List Str → Str → Option Str
  | [], _ => none
  | line :: rest, key =>
    match lastValueIn separator rest key with
    | some value => some value
    | none =>
      match splitAtFirst separator line with
      | some (before, after) => if before = key then some after else none
      | none => none

/-- An `/etc/os-release` file in which the key `NAME` occurs on two lines. -/
def osRelease : Str :=
  ("NAME=\"Ubuntu\"\n" ++ "PRETTY_NAME=\"Ubuntu 18.04.2 LTS\"\n" ++ "NAME=\"Ubuntu=Linux\"\n").toList

/-- A file whose second line has no `=`. -/
def osReleaseBroken : Str :=
  ("NAME=\"Ubuntu\"\n" ++ "Ubuntu 18.04.2 LTS\n").toList

/-- A snapshot with unusual `Uid:` lines: the one of process 7 holds the id 3000000000,
which is beyond the largest `int`, the one of process 8 has no character between `Uid:`
and the id 1001. -/
def fsUidEdge : ProcFs :=
  ⟨none, fun _ => none, fun _ => none,
   fun pid =>
     if pid = 7 then some "Name:\tcat\nUid:\t3000000000\t3000000000\nGid:\t5\n".toList
     else if pid = 8 then some "Name:\tcat\nUid:1001\n".toList
     else none,
   passwdThree, 100⟩

/-- A snapshot in which process 9 runs as the user 4242 and the identity database cannot
be opened. -/
def fsUidNoPasswd : ProcFs :=
  ⟨none, fun _ => none, fun _ => none,
   fun _ => some "Name:\tcat\nUid:\t4242\t4242\t4242\t4242\n".toList, none, 100⟩

/-- An identity database whose second line carries the id 4294967294. -/
def passwdLargeUid : Str :=
  ("root:x:0:0:root:/root:/bin/bash\n" ++
    "nfsnobody:x:4294967294:4294967294:Anonymous NFS User:/var/lib/nfs:/sbin/nologin\n").toList

/-- The records of `passwdLargeUid`. -/
def recordsLargeUid : List PasswdRecord :=
  [⟨"root".toList, "x".toList, 0, "0:root:/root:/bin/bash".toList⟩,
   ⟨"nfsnobody".toList, "x".toList, 4294967294,
     "4294967294:Anonymous NFS User:/var/lib/nfs:/sbin/nologin".toList⟩]

end HtopClone

/-! # Theorems -/

namespace HtopClone

/-! ## processor.cpp -/

/-- On a readable `/proc/stat`, `Processor::Utilization` returns the quotient of the
deltas against the stored counters and stores the counters it read. -/
theorem Processor.Utilization_of_line (p : Processor) (f : Option Str) (line : Str)
    (h : readStatLine f = Except.ok line) :
    p.Utilization f = Except.ok
      (FloatVal.div
        (((parseCpuLine line).total_time - p.previous_total_time_)
          - ((parseCpuLine line).idle_time - p.previous_idle_time_))
        ((parseCpuLine line).total_time - p.previous_total_time_),
       ⟨(parseCpuLine line).total_time, (parseCpuLine line).idle_time⟩) := by
  simp [Processor.Utilization, h, CpuTimes.total_time, CpuTimes.idle_time,
    CpuTimes.operation_time]

/-- A quotient with a non-zero divisor is the finite rational quotient. -/
theorem FloatVal.div_of_ne_zero (a b : Int) (hb : b ≠ 0) :
    FloatVal.div a b = FloatVal.finite ((a : ℚ) / (b : ℚ)) := by
  simp [FloatVal.div, hb]

/-- C3: two consecutive calls of `Processor::Utilization` that read the lines `l1`
and then `l2`, with a total that grows, both return, and the second one returns
`((total2 - total1) - (idle2 - idle1)) / (total2 - total1)` and stores `(total2, idle2)`,
where `total = user+nice+system+irq+softirq+steal+idle+iowait` and `idle = idle+iowait`. -/
theorem Processor.Utilization_consecutive (p0 : Processor) (f1 f2 : Option Str) (l1 l2 : Str)
    (h1 : readStatLine f1 = Except.ok l1) (h2 : readStatLine f2 = Except.ok l2)
    (hlt : (parseCpuLine l1).total_time < (parseCpuLine l2).total_time) :
    ∃ r1 p1, p0.Utilization f1 = Except.ok (r1, p1) ∧
      p1.Utilization f2 = Except.ok
        (FloatVal.finite
          (((((parseCpuLine l2).total_time - (parseCpuLine l1).total_time)
              - ((parseCpuLine l2).idle_time - (parseCpuLine l1).idle_time) : Int) : ℚ)
            / (((parseCpuLine l2).total_time - (parseCpuLine l1).total_time : Int) : ℚ)),
         ⟨(parseCpuLine l2).total_time, (parseCpuLine l2).idle_time⟩) := by
  refine ⟨_, _, Processor.Utilization_of_line p0 f1 l1 h1, ?_⟩
  rw [Processor.Utilization_of_line _ f2 l2 h2]
  have hne : (parseCpuLine l2).total_time - (parseCpuLine l1).total_time ≠ 0 := by omega
  simp only [FloatVal.div_of_ne_zero _ _ hne]

/-- C3, at the counters (1000, 400) then (1500, 550): the second call returns 0.7. -/
theorem Processor.Utilization_consecutive_witness :
    (parseCpuLine cpuLine1000).total_time = 1000 ∧ (parseCpuLine cpuLine1000).idle_time = 400 ∧
    (parseCpuLine cpuLine1500).total_time = 1500 ∧ (parseCpuLine cpuLine1500).idle_time = 550 ∧
    ∃ r1 p1, Processor.fresh.Utilization statFile1000 = Except.ok (r1, p1) ∧
      p1.Utilization statFile1500 = Except.ok (FloatVal.finite (7 / 10), ⟨1500, 550⟩) := by
  have ht1 : (parseCpuLine cpuLine1000).total_time = 1000 := by decide
  have hi1 : (parseCpuLine cpuLine1000).idle_time = 400 := by decide
  have ht2 : (parseCpuLine cpuLine1500).total_time = 1500 := by decide
  have hi2 : (parseCpuLine cpuLine1500).idle_time = 550 := by decide
  refine ⟨ht1, hi1, ht2, hi2, ?_⟩
  obtain ⟨r1, p1, ha, hb⟩ :=
    Processor.Utilization_consecutive Processor.fresh statFile1000 statFile1500
      cpuLine1000 cpuLine1500 (by decide) (by decide) (by decide)
  refine ⟨r1, p1, ha, ?_⟩
  rw [hb, ht1, hi1, ht2, hi2]
  norm_num

/-- C10: the first call of `Processor::Utilization` on a freshly constructed `Processor`
that reads counters with `total > 0` returns `(total - idle) / total` and stores
`(total, idle)`. -/
theorem Processor.Utilization_first_call (f : Option Str) (line : Str)
    (h : readStatLine f = Except.ok line) (hpos : 0 < (parseCpuLine line).total_time) :
    Processor.fresh.Utilization f = Except.ok
      (FloatVal.finite
        ((((parseCpuLine line).total_time - (parseCpuLine line).idle_time : Int) : ℚ)
          / (((parseCpuLine line).total_time : Int) : ℚ)),
       ⟨(parseCpuLine line).total_time, (parseCpuLine line).idle_time⟩) := by
  rw [Processor.Utilization_of_line _ f line h]
  have hne : (parseCpuLine line).total_time - Processor.fresh.previous_total_time_ ≠ 0 := by
    simp only [Processor.fresh]; omega
  rw [FloatVal.div_of_ne_zero _ _ hne]
  simp [Processor.fresh]

/-- C10, at total 1000 and idle 400: the first call returns 0.6. -/
theorem Processor.Utilization_first_call_witness :
    (parseCpuLine cpuLine1000).total_time = 1000 ∧ (parseCpuLine cpuLine1000).idle_time = 400 ∧
    Processor.fresh.Utilization statFile1000
      = Except.ok (FloatVal.finite (6 / 10), ⟨1000, 400⟩) := by
  have ht1 : (parseCpuLine cpuLine1000).total_time = 1000 := by decide
  have hi1 : (parseCpuLine cpuLine1000).idle_time = 400 := by decide
  refine ⟨ht1, hi1, ?_⟩
  rw [Processor.Utilization_first_call statFile1000 cpuLine1000 (by decide) (by decide),
    ht1, hi1]
  norm_num

/-! ## uid_resolver.cpp -/

/-- C7: for an id present in the current mapping, `UidResolver::FetchUserName` returns
the name the mapping holds, calls `BuildUidsToUserNameMap` zero times and leaves the
mapping unchanged, whatever the identity database contains. -/
theorem UidResolver.FetchUserName_present (self : UidResolver) (passwd : Option Str)
    (uid : Int) (name : Str) (h : self.uid_to_names_.find uid = some name) :
    self.FetchUserName passwd uid = Except.ok ⟨some name, self, 0⟩ := by
  simp [UidResolver.FetchUserName, h]

/-- C7, at the id 1000 of a mapping that holds it, over an unreadable database. -/
theorem UidResolver.FetchUserName_present_witness :
    resolverKnown.uid_to_names_.find 1000 = some "alice".toList ∧
    resolverKnown.FetchUserName none 1000
      = Except.ok ⟨some "alice".toList, resolverKnown, 0⟩ :=
  ⟨by decide, UidResolver.FetchUserName_present resolverKnown none 1000 "alice".toList
    (by decide)⟩

/-- C8: for an id absent from the current mapping, `UidResolver::FetchUserName` calls
`BuildUidsToUserNameMap` exactly once.  When that call yields the mapping `fresh`, the
stored mapping becomes `fresh` (nothing of the old mapping is kept) and the result is
the entry of `fresh` for the id, or `nullopt` when it has none; when that call throws,
the same exception leaves `FetchUserName`. -/
theorem UidResolver.FetchUserName_absent (self : UidResolver) (passwd : Option Str)
    (uid : Int) (h : self.uid_to_names_.find uid = none) :
    (∀ fresh, BuildUidsToUserNameMap passwd = Except.ok fresh →
      self.FetchUserName passwd uid = Except.ok ⟨fresh.find uid, ⟨fresh⟩, 1⟩) ∧
    (∀ e, BuildUidsToUserNameMap passwd = Except.error e →
      self.FetchUserName passwd uid = Except.error e) := by
  constructor
  · intro fresh hb
    cases hf : fresh.find uid <;> simp [UidResolver.FetchUserName, h, hb, hf]
  · intro e hb
    simp [UidResolver.FetchUserName, h, hb]

/-- C8, at the absent ids 1001 (in the database) and 77 (not in the database): one
rebuild each, the old entry for 1000 is gone, and 77 is not found. -/
theorem UidResolver.FetchUserName_absent_witness :
    resolverKnown.uid_to_names_.find 1001 = none ∧
    resolverKnown.uid_to_names_.find 77 = none ∧
    BuildUidsToUserNameMap passwdThree = Except.ok freshThree ∧
    resolverKnown.FetchUserName passwdThree 1001
      = Except.ok ⟨some "bob".toList, ⟨freshThree⟩, 1⟩ ∧
    resolverKnown.FetchUserName passwdThree 77 = Except.ok ⟨none, ⟨freshThree⟩, 1⟩ := by
  have hb : BuildUidsToUserNameMap passwdThree = Except.ok freshThree := by decide
  refine ⟨by decide, by decide, hb, ?_, ?_⟩
  · rw [(UidResolver.FetchUserName_absent resolverKnown passwdThree 1001 (by decide)).1
      freshThree hb]
    decide
  · rw [(UidResolver.FetchUserName_absent resolverKnown passwdThree 77 (by decide)).1
      freshThree hb]
    decide

/-! ## process.cpp -/

/-- C9: whenever `UpTime()` is 0, `Process::CpuUtilization` returns exactly 0, for every
process state and every content of the files; the object is left as it was. -/
theorem Process.CpuUtilization_of_UpTime_zero (self : Process) (fs : ProcFs)
    (now_uptime now_measured : Int) (h : self.UpTime now_uptime = 0) :
    self.CpuUtilization fs now_uptime now_measured = (FloatVal.finite 0, self) := by
  simp [Process.CpuUtilization, h]

/-- C9, at a process started at time 0 that is asked 0.9 s later. -/
theorem Process.CpuUtilization_of_UpTime_zero_witness :
    processAt1000.UpTime 900000000 = 0 ∧
    processAt1000.CpuUtilization fsStat130 900000000 900000001
      = (FloatVal.finite 0, processAt1000) :=
  ⟨by decide,
   Process.CpuUtilization_of_UpTime_zero processAt1000 fsStat130 900000000 900000001
    (by decide)⟩

/-- C4: with `UpTime() != 0`, a stat file whose first line is `line`, and a positive
number of whole milliseconds between the stored `last_cpu_utilization_check_` and the
clock reading `now_measured`, `Process::CpuUtilization` returns
`(N - last_cpu_time_spent_ms_) / (elapsed ms)` where `N` is the consumed ticks of `line`
converted to milliseconds, and afterwards the stored state is `(N, now_measured)`. -/
theorem Process.CpuUtilization_delta (self : Process) (fs : ProcFs)
    (now_uptime now_measured : Int) (content line rest : Str)
    (hup : self.UpTime now_uptime ≠ 0)
    (hstat : fs.stat self.Pid = some content)
    (hline : getline content = some (line, rest))
    (hpos : 0 < Int.tdiv (now_measured - self.last_cpu_utilization_check_) 1000000) :
    self.CpuUtilization fs now_uptime now_measured =
      (FloatVal.finite
        (((Int.tdiv (1000 * totalTimeSpentTicks line) fs.clk_tck
            - self.last_cpu_time_spent_ms_ : Int) : ℚ)
          / ((Int.tdiv (now_measured - self.last_cpu_utilization_check_) 1000000 : Int) : ℚ)),
       { self with
         last_cpu_utilization_check_ := now_measured
         last_cpu_time_spent_ms_ := Int.tdiv (1000 * totalTimeSpentTicks line) fs.clk_tck }) := by
  have hne : Int.tdiv (now_measured - self.last_cpu_utilization_check_) 1000000 ≠ 0 := by omega
  simp only [Process.CpuUtilization, hup, hstat, hline, if_false,
    FloatVal.div_of_ne_zero _ _ hne]

/-- C4, at `last_cpu_time_spent_ms_ = 1000`, a read of 1300 ms and one second between
the measurements: the call returns 0.3 and stores `(1300, T + 1 s)`. -/
theorem Process.CpuUtilization_delta_witness :
    processAt1000.UpTime 6000000000 ≠ 0 ∧
    Int.tdiv (1000 * totalTimeSpentTicks statLine130) fsStat130.clk_tck = 1300 ∧
    processAt1000.CpuUtilization fsStat130 6000000000 6000000000
      = (FloatVal.finite (3 / 10),
         { processAt1000 with
           last_cpu_utilization_check_ := 6000000000
           last_cpu_time_spent_ms_ := 1300 }) := by
  have hN : Int.tdiv (1000 * totalTimeSpentTicks statLine130) fsStat130.clk_tck = 1300 := by
    decide
  have hms : Int.tdiv (6000000000 - processAt1000.last_cpu_utilization_check_) 1000000
      = 1000 := by decide
  refine ⟨by decide, hN, ?_⟩
  rw [Process.CpuUtilization_delta processAt1000 fsStat130 6000000000 6000000000
    (statLine130 ++ "\n".toList) statLine130 [] (by decide) (by decide) (by decide)
    (by decide), hN, hms]
  norm_num [processAt1000]

/-- C5 (the code departs from the claim): the processes 200 and 150, as the constructor
builds them when process 200 runs as root and process 150 has exited, share the owner
id 0, and 200 has the greater pid, yet `Process::operator<` does not put 200 before 150:
it compares the owner names (`root` and `-`) to decide whether the owners are the same. -/
theorem Process.lt_shared_owner_id_not_by_pid :
    Process.construct fsOwners 200 0 ⟨freshThree⟩ = Except.ok (procRoot200, ⟨freshThree⟩) ∧
    Process.construct fsOwners 150 0 ⟨freshThree⟩ = Except.ok (procGone150, ⟨freshThree⟩) ∧
    procRoot200.uid_ = procGone150.uid_ ∧
    procRoot200.Pid > procGone150.Pid ∧
    procRoot200.lt procGone150 = false := by
  decide

/-- C6 (the code departs from the claim): on the processes 150, 200 and 300 that the
constructor builds from `fsOwners`, `Process::operator<` is not a strict weak ordering.
The processes 150 and 200 have distinct pids and neither is before the other; 150 is
incomparable with 200 and 200 with 300, yet 300 is before 150. -/
theorem Process.lt_not_strict_weak_order :
    Process.construct fsOwners 150 0 ⟨freshThree⟩ = Except.ok (procGone150, ⟨freshThree⟩) ∧
    Process.construct fsOwners 200 0 ⟨freshThree⟩ = Except.ok (procRoot200, ⟨freshThree⟩) ∧
    Process.construct fsOwners 300 0 ⟨freshThree⟩ = Except.ok (procGone300, ⟨freshThree⟩) ∧
    (procGone150.Pid ≠ procRoot200.Pid ∧
      procGone150.lt procRoot200 = false ∧ procRoot200.lt procGone150 = false) ∧
    (procRoot200.lt procGone300 = false ∧ procGone300.lt procRoot200 = false) ∧
    procGone300.lt procGone150 = true := by
  decide

/-! ## system.cpp -/

/-- The front-insertion order visits exactly the inserted values, each once. -/
theorem frontInsertOrder_isIterationOrder : IsIterationOrder frontInsertOrder := by
  have key : ∀ (l s : List Int), s.Nodup →
      (l.foldl (fun s x => if x ∈ s then s else x :: s) s).Nodup ∧
      ∀ x, x ∈ l.foldl (fun s x => if x ∈ s then s else x :: s) s ↔ x ∈ s ∨ x ∈ l := by
    intro l
    induction l with
    | nil => intro s hs; simpa using hs
    | cons a l ih =>
      intro s hs
      by_cases ha : a ∈ s
      · obtain ⟨h1, h2⟩ := ih s hs
        simp only [List.foldl_cons, ha, if_true]
        refine ⟨h1, fun x => ?_⟩
        rw [h2 x, List.mem_cons]
        constructor
        · rintro (h | h)
          · exact Or.inl h
          · exact Or.inr (Or.inr h)
        · rintro (h | h | h)
          · exact Or.inl h
          · exact Or.inl (h ▸ ha)
          · exact Or.inr h
      · obtain ⟨h1, h2⟩ := ih (a :: s) (List.nodup_cons.2 ⟨ha, hs⟩)
        simp only [List.foldl_cons, ha, if_false]
        refine ⟨h1, fun x => ?_⟩
        rw [h2 x, List.mem_cons, List.mem_cons]
        tauto
  constructor
  · intro l
    exact (key l [] List.nodup_nil).1
  · intro l x
    simpa using (key l [] List.nodup_nil).2 x

/-- With an exhausted second range, `std::set_difference` copies the first range. -/
theorem set_difference_nil_right (xs : List Int) : set_difference xs [] = xs := by
  induction xs with
  | nil => rfl
  | cons x xs ih => simp [set_difference, set_difference.walk, ih]

/-- One step of `std::set_difference` on two non-empty ranges. -/
theorem set_difference_cons_cons (x : Int) (xs : List Int) (y : Int) (ys : List Int) :
    set_difference (x :: xs) (y :: ys) =
      if x < y then x :: set_difference xs (y :: ys)
      else if y < x then set_difference (x :: xs) ys
      else set_difference xs ys := by
  simp only [set_difference, set_difference.walk]

/-- The output of `std::set_difference` is taken from the first range, sorted or not. -/
theorem mem_of_mem_set_difference :
    ∀ (xs ys : List Int) (z : Int), z ∈ set_difference xs ys → z ∈ xs := by
  intro xs
  induction xs with
  | nil => intro ys z h; simp [set_difference] at h
  | cons x xs ihx =>
    intro ys
    induction ys with
    | nil => intro z h; rwa [set_difference_nil_right] at h
    | cons y ys ihy =>
      intro z h
      rw [set_difference_cons_cons] at h
      split_ifs at h with h1 h2
      · rcases List.mem_cons.1 h with h' | h'
        · exact h' ▸ List.mem_cons_self _ _
        · exact List.mem_cons_of_mem _ (ihx _ _ h')
      · exact ihy z h
      · exact List.mem_cons_of_mem _ (ihx _ _ h)

/-- An element of the first range that is not in the second one is in the output of
`std::set_difference`, sorted or not. -/
theorem mem_set_difference_of_not_mem :
    ∀ (xs ys : List Int) (z : Int), z ∈ xs → z ∉ ys → z ∈ set_difference xs ys := by
  intro xs
  induction xs with
  | nil => intro ys z h; simp at h
  | cons x xs ihx =>
    intro ys
    induction ys with
    | nil => intro z h _; rwa [set_difference_nil_right]
    | cons y ys ihy =>
      intro z hz hn
      have hzy : z ≠ y := fun h => hn (h ▸ List.mem_cons_self _ _)
      have hzys : z ∉ ys := fun h => hn (List.mem_cons_of_mem _ h)
      rw [set_difference_cons_cons]
      split_ifs with h1 h2
      · rcases List.mem_cons.1 hz with h' | h'
        · exact h' ▸ List.mem_cons_self _ _
        · exact List.mem_cons_of_mem _ (ihx _ _ h' hn)
      · exact ihy z hz hzys
      · have hxy : x = y := by omega
        rcases List.mem_cons.1 hz with h' | h'
        · exact absurd (h'.trans hxy) hzy
        · exact ihx _ _ h' hzys

/-- For two duplicate-free ranges, sorted or not, an element of both is in the output of
`std::set_difference(a, b)` exactly when it is in the output of `std::set_difference(b, a)`:
both runs advance through the ranges in the same way. -/
theorem mem_set_difference_comm :
    ∀ (xs ys : List Int), xs.Nodup → ys.Nodup → ∀ z, z ∈ xs → z ∈ ys →
      (z ∈ set_difference xs ys ↔ z ∈ set_difference ys xs) := by
  intro xs
  induction xs with
  | nil => intro ys _ _ z h; simp at h
  | cons x xs ihx =>
    intro ys
    induction ys with
    | nil => intro _ _ z _ h; simp at h
    | cons y ys ihy =>
      intro hxs hys z hzx hzy
      obtain ⟨hx, hxs'⟩ := List.nodup_cons.1 hxs
      obtain ⟨hy, hys'⟩ := List.nodup_cons.1 hys
      rw [set_difference_cons_cons x xs y ys, set_difference_cons_cons y ys x xs]
      by_cases h1 : x < y
      · have h2 : ¬ y < x := by omega
        simp only [h1, h2, if_true, if_false]
        by_cases hzx' : z = x
        · subst hzx'
          exact ⟨fun _ => mem_set_difference_of_not_mem _ _ _ hzy hx,
            fun _ => List.mem_cons_self _ _⟩
        · have hzxs : z ∈ xs := (List.mem_cons.1 hzx).resolve_left hzx'
          rw [List.mem_cons]
          constructor
          · rintro (h | h)
            · exact absurd h hzx'
            · exact (ihx (y :: ys) hxs' hys z hzxs hzy).1 h
          · intro h
            exact Or.inr ((ihx (y :: ys) hxs' hys z hzxs hzy).2 h)
      · by_cases h2 : y < x
        · simp only [h1, h2, if_true, if_false]
          by_cases hzy' : z = y
          · subst hzy'
            exact ⟨fun _ => List.mem_cons_self _ _,
              fun _ => mem_set_difference_of_not_mem _ _ _ hzx hy⟩
          · have hzys : z ∈ ys := (List.mem_cons.1 hzy).resolve_left hzy'
            rw [List.mem_cons]
            constructor
            · intro h
              exact Or.inr ((ihy hxs hys' z hzx hzys).1 h)
            · rintro (h | h)
              · exact absurd h hzy'
              · exact (ihy hxs hys' z hzx hzys).2 h
        · have hxy : x = y := by omega
          subst hxy
          simp only [h1, if_false]
          by_cases hzx' : z = x
          · subst hzx'
            exact ⟨fun h => absurd (mem_of_mem_set_difference _ _ _ h) hx,
              fun h => absurd (mem_of_mem_set_difference _ _ _ h) hy⟩
          · exact ihx ys hxs' hys' z ((List.mem_cons.1 hzx).resolve_left hzx')
              ((List.mem_cons.1 hzy).resolve_left hzx')

/-- The pids kept (tracked and not in the computed removal set) together with the pids in
the computed addition set are exactly the current pids, for duplicate-free enumerations
in any order. -/
theorem reconciled_mem_iff (cur prev : List Int) (hc : cur.Nodup) (hp : prev.Nodup) (z : Int) :
    ((z ∈ prev ∧ z ∉ set_difference prev cur) ∨ z ∈ set_difference cur prev) ↔ z ∈ cur := by
  constructor
  · rintro (⟨h1, h2⟩ | h)
    · by_contra hn
      exact h2 (mem_set_difference_of_not_mem _ _ _ h1 hn)
    · exact mem_of_mem_set_difference _ _ _ h
  · intro hz
    by_cases hzp : z ∈ prev
    · by_cases hd : z ∈ set_difference cur prev
      · exact Or.inr hd
      · exact Or.inl ⟨hzp, fun h => hd ((mem_set_difference_comm cur prev hc hp z hz hzp).2 h)⟩
    · exact Or.inr (mem_set_difference_of_not_mem _ _ _ hz hzp)

/-- The set `FetchProcessIds` returns is enumerated without repetition. -/
theorem FetchProcessIds_nodup (iter : IterOrder) (hiter : IsIterationOrder iter) (fs : ProcFs)
    (current_pids : List Int) (h : FetchProcessIds iter fs = Except.ok current_pids) :
    current_pids.Nodup := by
  unfold FetchProcessIds at h
  split at h
  · simp at h
  · split at h
    · simp at h
    · simp only [Except.ok.injEq] at h
      exact h ▸ hiter.nodup _

/-- The constructor stores the pid it is given. -/
theorem Process.construct_Pid (fs : ProcFs) (pid boot_time : Int) (r r1 : UidResolver)
    (p : Process) (h : Process.construct fs pid boot_time r = Except.ok (p, r1)) :
    p.Pid = pid := by
  unfold Process.construct at h
  split at h
  · simp at h
  · simp only [Except.ok.injEq, Prod.mk.injEq] at h
    rw [← h.1]
    rfl

/-- The loop of `emplace_back` appends one process per pid, in order. -/
theorem emplaceAll_map_Pid (fs : ProcFs) (boot_time : Int) :
    ∀ (pids : List Int) (processes : List Process) (r : UidResolver)
      (processes1 : List Process) (r1 : UidResolver),
      emplaceAll fs boot_time pids (processes, r) = Except.ok (processes1, r1) →
      processes1.map Process.Pid = processes.map Process.Pid ++ pids := by
  intro pids
  induction pids with
  | nil =>
    intro processes r processes1 r1 h
    simp only [emplaceAll, Except.ok.injEq, Prod.mk.injEq] at h
    simp [h.1]
  | cons pid rest ih =>
    intro processes r processes1 r1 h
    simp only [emplaceAll] at h
    split at h
    · simp at h
    · rename_i process resolver hc
      rw [ih _ _ _ _ h, List.map_append, List.map_cons, List.map_nil,
        Process.construct_Pid fs pid boot_time r resolver process hc]
      simp

/-- Insertion into an ordered sequence rearranges. -/
theorem orderedInsert_perm (x : Process) (l : List Process) :
    (orderedInsert x l).Perm (x :: l) := by
  induction l with
  | nil => exact List.Perm.refl _
  | cons y ys ih =>
    simp only [orderedInsert]
    split_ifs
    · exact List.Perm.refl _
    · exact (List.Perm.cons y ih).trans (List.Perm.swap x y ys)

/-- The sort rearranges its input. -/
theorem std_sort_perm (l : List Process) : (std_sort l).Perm l := by
  induction l with
  | nil => exact List.Perm.refl _
  | cons x xs ih =>
    exact (orderedInsert_perm x (std_sort xs)).trans (List.Perm.cons x ih)

/-- What the removal step keeps. -/
theorem mem_removeObsolete (pids_to_remove : List Int) (processes : List Process)
    (p : Process) :
    p ∈ removeObsolete pids_to_remove processes ↔ p ∈ processes ∧ p.Pid ∉ pids_to_remove := by
  unfold removeObsolete
  split_ifs with h
  · have : pids_to_remove = [] := by simpa using h
    simp [this]
  · simp [List.mem_filter]

/-- C1: when `System::Processes` returns, the pids of the returned collection are exactly
the pids `FetchProcessIds` reported: no stale pid remains and no live pid is missing.
This holds for every tracked collection (with or without duplicate pids), every live pid
set, and every order in which the container enumerates its sets. -/
theorem System.Processes_pids_exactly_live (iter : IterOrder) (hiter : IsIterationOrder iter)
    (fs : ProcFs) (self result : System) (current_pids : List Int)
    (hlive : FetchProcessIds iter fs = Except.ok current_pids)
    (hret : self.Processes iter fs = Except.ok result) :
    ∀ pid, pid ∈ result.processes_.map Process.Pid ↔ pid ∈ current_pids := by
  intro pid
  have hc := FetchProcessIds_nodup iter hiter fs current_pids hlive
  have hp := hiter.nodup (self.processes_.map Process.Pid)
  unfold System.Processes at hret
  rw [hlive] at hret
  simp only at hret
  split at hret
  · simp at hret
  · rename_i processes resolver he
    simp only [Except.ok.injEq] at hret
    subst hret
    have hpids := emplaceAll_map_Pid fs self.boot_time_ _ _ _ _ _ he
    have hperm : (List.map Process.Pid (std_sort processes)).Perm
        (List.map Process.Pid processes) := (std_sort_perm processes).map _
    simp only
    rw [hperm.mem_iff, hpids, List.mem_append,
      ← reconciled_mem_iff current_pids (iter (self.processes_.map Process.Pid)) hc hp pid]
    simp only [pidsToAdd, pidsToRemove, hiter.mem_iff, List.mem_map, mem_removeObsolete]
    constructor
    · rintro (⟨p, ⟨hp1, hp2⟩, rfl⟩ | h)
      · exact Or.inl ⟨⟨p, hp1, rfl⟩, hp2⟩
      · exact Or.inr h
    · rintro (⟨⟨p, hp1, rfl⟩, hp2⟩ | h)
      · exact Or.inl ⟨p, ⟨hp1, hp2⟩, rfl⟩
      · exact Or.inr h

/-- C1, at the tracked pids 1, 2, 3 and the live pids 2, 3, 4 with the container
iterating in front-insertion order: the returned collection has exactly the pids
2, 3, 4. -/
theorem System.Processes_pids_exactly_live_witness :
    FetchProcessIds frontInsertOrder (fsLive dir234) = Except.ok [4, 3, 2] ∧
    (systemTracking [trackedProcess 3 10000000000 1300, trackedProcess 2 10000000000 1300,
        trackedProcess 1 10000000000 1300]).Processes frontInsertOrder (fsLive dir234)
      = Except.ok (systemTracking [trackedProcess 4 3000000000 0,
          trackedProcess 3 3000000000 0, trackedProcess 2 3000000000 0]) ∧
    ∀ pid, pid ∈ (systemTracking [trackedProcess 4 3000000000 0,
          trackedProcess 3 3000000000 0, trackedProcess 2 3000000000 0]).processes_.map
        Process.Pid ↔ pid ∈ [(4 : Int), 3, 2] := by
  have h1 : FetchProcessIds frontInsertOrder (fsLive dir234) = Except.ok [4, 3, 2] := by
    decide
  have h2 : (systemTracking [trackedProcess 3 10000000000 1300,
        trackedProcess 2 10000000000 1300,
        trackedProcess 1 10000000000 1300]).Processes frontInsertOrder (fsLive dir234)
      = Except.ok (systemTracking [trackedProcess 4 3000000000 0,
          trackedProcess 3 3000000000 0, trackedProcess 2 3000000000 0]) := by decide
  exact ⟨h1, h2, System.Processes_pids_exactly_live frontInsertOrder
    frontInsertOrder_isIterationOrder (fsLive dir234) _ _ _ h1 h2⟩

/-- C2 (the code departs from the claim): with the container iterating in front-insertion
order, the processes 2 and 3 are tracked with the delta state (10 s, 1300 ms) before
`System::Processes` and are live, but the call removes them and constructs them anew:
afterwards their delta state is the initial one (start time, 0 ms).  The tracked pids are
enumerated as 1, 2, 3 and the live pids as 4, 3, 2; on these unsorted ranges
`std::set_difference` puts every tracked pid into `pids_to_remove` and every live pid into
`pids_to_add`. -/
theorem System.Processes_recreates_live_samples :
    frontInsertOrder [3, 2, 1] = [1, 2, 3] ∧
    FetchProcessIds frontInsertOrder (fsLive dir234) = Except.ok [4, 3, 2] ∧
    set_difference [1, 2, 3] [4, 3, 2] = [1, 2, 3] ∧
    set_difference [4, 3, 2] [1, 2, 3] = [4, 3, 2] ∧
    pollTwice frontInsertOrder = Except.ok
      ([(3, 10000000000, 1300), (2, 10000000000, 1300), (1, 10000000000, 1300)],
       [(4, 3000000000, 0), (3, 3000000000, 0), (2, 3000000000, 0)]) := by
  decide

/-! ## Robustness and ranges -/

/-- C11 (the code departs from the claim): two consecutive calls of
`Processor::Utilization` that read the same counters (total 1000, idle 400) make
`total_delta` zero in the second call; the division is evaluated all the same and the
call returns NaN, not a number. -/
theorem Processor.Utilization_zero_delta_is_nan :
    (Processor.fresh.Utilization statFile1000).toOption.map Prod.snd
      = some (⟨1000, 400⟩ : Processor) ∧
    Processor.Utilization ⟨1000, 400⟩ statFile1000 = Except.ok (FloatVal.nan, ⟨1000, 400⟩) ∧
    FloatVal.nan.isNumber = false := by
  decide

/-- C12 (the code departs from the claim): a status file with a line that is exactly
`Uid:` makes the construction of a `Process` throw `std::out_of_range`, and a status file
whose `VmSize` line has no number makes `Process::Ram` throw `std::invalid_argument`. -/
theorem Process.malformed_status_raises :
    Process.construct fsMalformed 7 0 ⟨freshThree⟩ = Except.error Error.out_of_range ∧
    Process.construct fsMalformed 8 0 ⟨freshThree⟩ = Except.ok (procRoot8, ⟨freshThree⟩) ∧
    procRoot8.Ram fsMalformed = Except.error Error.invalid_argument := by
  decide

/-- With `UpTime() != 0` and a stat file whose first line is `line`,
`Process::CpuUtilization` returns the quotient of the consumed-time delta and the elapsed
milliseconds and stores the new measurement. -/
theorem Process.CpuUtilization_of_line (self : Process) (fs : ProcFs)
    (now_uptime now_measured : Int) (content line rest : Str)
    (hup : self.UpTime now_uptime ≠ 0)
    (hstat : fs.stat self.Pid = some content)
    (hline : getline content = some (line, rest)) :
    self.CpuUtilization fs now_uptime now_measured =
      (FloatVal.div
        (Int.tdiv (1000 * totalTimeSpentTicks line) fs.clk_tck - self.last_cpu_time_spent_ms_)
        (Int.tdiv (now_measured - self.last_cpu_utilization_check_) 1000000),
       { self with
         last_cpu_utilization_check_ := now_measured
         last_cpu_time_spent_ms_ := Int.tdiv (1000 * totalTimeSpentTicks line) fs.clk_tck }) := by
  simp only [Process.CpuUtilization, hup, hstat, hline, if_false]

/-- C14 (the code departs from the claim): a process whose last measurement read 1000 ms
at 5 s and whose stat line now shows 1300 ms (the consumed time did not decrease) returns
3 when it is measured 100 ms later, and an infinity when it is measured within the same
millisecond; neither value lies in `[0, 1]`. -/
theorem Process.CpuUtilization_exceeds_one :
    processAt1000.last_cpu_time_spent_ms_ = 1000 ∧
    Int.tdiv (1000 * totalTimeSpentTicks statLine130) fsStat130.clk_tck = 1300 ∧
    (processAt1000.CpuUtilization fsStat130 5100000000 5100000000).1 = FloatVal.finite 3 ∧
    ¬ (FloatVal.finite 3).inUnitInterval ∧
    (processAt1000.CpuUtilization fsStat130 5100000000 5000000000).1 = FloatVal.posInf ∧
    ¬ FloatVal.posInf.inUnitInterval := by
  have hN : Int.tdiv (1000 * totalTimeSpentTicks statLine130) fsStat130.clk_tck = 1300 := by
    decide
  have hms : Int.tdiv (5100000000 - processAt1000.last_cpu_utilization_check_) 1000000
      = 100 := by decide
  refine ⟨rfl, hN, ?_, ?_, by decide, ?_⟩
  · rw [Process.CpuUtilization_of_line processAt1000 fsStat130 5100000000 5100000000
      (statLine130 ++ "\n".toList) statLine130 [] (by decide) (by decide) (by decide), hN, hms]
    simp only [FloatVal.div, processAt1000]
    norm_num
  · simp only [FloatVal.inUnitInterval]
    norm_num
  · simp only [FloatVal.inUnitInterval, not_false_eq_true]

/-- C18: with `UpTime() != 0`, when the stat file of the process cannot be opened, or
opens but yields no line, `Process::CpuUtilization` returns 0 and leaves the object, and
so the delta state, as it was. -/
theorem Process.CpuUtilization_unreadable (self : Process) (fs : ProcFs)
    (now_uptime now_measured : Int) (hup : self.UpTime now_uptime ≠ 0)
    (hstat : fs.stat self.Pid = none ∨
      ∃ content, fs.stat self.Pid = some content ∧ getline content = none) :
    self.CpuUtilization fs now_uptime now_measured = (FloatVal.finite 0, self) := by
  rcases hstat with h | ⟨content, h, hl⟩
  · simp only [Process.CpuUtilization, hup, h, if_false]
  · simp only [Process.CpuUtilization, hup, h, hl, if_false]

/-- C18, at a process whose stat file cannot be opened and at one whose stat file is
empty. -/
theorem Process.CpuUtilization_unreadable_witness :
    processAt1000.UpTime 6000000000 ≠ 0 ∧
    fsOwners.stat processAt1000.Pid = none ∧
    processAt1000.CpuUtilization fsOwners 6000000000 6000000000
      = (FloatVal.finite 0, processAt1000) ∧
    fsStatEmpty.stat processAt1000.Pid = some [] ∧
    processAt1000.CpuUtilization fsStatEmpty 6000000000 6000000000
      = (FloatVal.finite 0, processAt1000) :=
  ⟨by decide, by decide,
   Process.CpuUtilization_unreadable processAt1000 fsOwners 6000000000 6000000000
     (by decide) (Or.inl (by decide)),
   by decide,
   Process.CpuUtilization_unreadable processAt1000 fsStatEmpty 6000000000 6000000000
     (by decide) (Or.inr ⟨[], by decide, by decide⟩)⟩

/-- C13: for two consecutive calls of `Processor::Utilization` that read the lines `l1`
and then `l2`, where none of the eight consumed counters decreases and the total grows,
both calls return and the value of the second one lies in `[0, 1]`. -/
theorem Processor.Utilization_in_unit_interval (p0 : Processor) (f1 f2 : Option Str)
    (l1 l2 : Str)
    (h1 : readStatLine f1 = Except.ok l1) (h2 : readStatLine f2 = Except.ok l2)
    (huser : (parseCpuLine l1).user ≤ (parseCpuLine l2).user)
    (hnice : (parseCpuLine l1).nice ≤ (parseCpuLine l2).nice)
    (hsystem : (parseCpuLine l1).system ≤ (parseCpuLine l2).system)
    (hidle : (parseCpuLine l1).idle ≤ (parseCpuLine l2).idle)
    (hiowait : (parseCpuLine l1).iowait ≤ (parseCpuLine l2).iowait)
    (hirq : (parseCpuLine l1).irq ≤ (parseCpuLine l2).irq)
    (hsoftirq : (parseCpuLine l1).softirq ≤ (parseCpuLine l2).softirq)
    (hsteal : (parseCpuLine l1).steal ≤ (parseCpuLine l2).steal)
    (htotal : (parseCpuLine l1).total_time < (parseCpuLine l2).total_time) :
    ∃ r1 p1, p0.Utilization f1 = Except.ok (r1, p1) ∧
      ∃ v p2, p1.Utilization f2 = Except.ok (v, p2) ∧ v.inUnitInterval := by
  refine ⟨_, _, Processor.Utilization_of_line p0 f1 l1 h1, _, _,
    Processor.Utilization_of_line _ f2 l2 h2, ?_⟩
  have hne : (parseCpuLine l2).total_time - (parseCpuLine l1).total_time ≠ 0 := by omega
  have hpos : (0 : ℚ) <
      (((parseCpuLine l2).total_time - (parseCpuLine l1).total_time : Int) : ℚ) := by
    exact_mod_cast (by omega : (0 : Int) <
      (parseCpuLine l2).total_time - (parseCpuLine l1).total_time)
  simp only [FloatVal.div_of_ne_zero _ _ hne, FloatVal.inUnitInterval]
  constructor
  · apply div_nonneg _ hpos.le
    have : (0 : Int) ≤ (parseCpuLine l2).total_time - (parseCpuLine l1).total_time
        - ((parseCpuLine l2).idle_time - (parseCpuLine l1).idle_time) := by
      simp only [CpuTimes.total_time, CpuTimes.operation_time, CpuTimes.idle_time]
      omega
    exact_mod_cast this
  · rw [div_le_one hpos]
    have : (parseCpuLine l2).total_time - (parseCpuLine l1).total_time
        - ((parseCpuLine l2).idle_time - (parseCpuLine l1).idle_time)
        ≤ (parseCpuLine l2).total_time - (parseCpuLine l1).total_time := by
      simp only [CpuTimes.idle_time]
      omega
    exact_mod_cast this

/-- C13, at the counters of `cpuLine1000` followed by those of `cpuLine1500`. -/
theorem Processor.Utilization_in_unit_interval_witness :
    (parseCpuLine cpuLine1000).total_time < (parseCpuLine cpuLine1500).total_time ∧
    ∃ r1 p1, Processor.fresh.Utilization statFile1000 = Except.ok (r1, p1) ∧
      ∃ v p2, p1.Utilization statFile1500 = Except.ok (v, p2) ∧ v.inUnitInterval :=
  ⟨by decide,
   Processor.Utilization_in_unit_interval Processor.fresh statFile1000 statFile1500
     cpuLine1000 cpuLine1500 (by decide) (by decide) (by decide) (by decide) (by decide)
     (by decide) (by decide) (by decide) (by decide) (by decide) (by decide)⟩

/-- The operator `Process::operator<` never holds in both directions. -/
theorem Process.lt_asymm (a b : Process) (h : a.lt b = true) : b.lt a = false := by
  unfold Process.lt at h ⊢
  by_cases hn : a.User = b.User
  · have hn' : b.User = a.User := hn.symm
    simp only [hn, if_true, decide_eq_true_eq] at h
    simp only [hn', if_true, decide_eq_false_iff_not]
    omega
  · have hn' : ¬ b.User = a.User := fun e => hn e.symm
    simp only [hn, if_false, decide_eq_true_eq] at h
    simp only [hn', if_false, decide_eq_false_iff_not]
    omega

/-- Insertion keeps a sequence free of adjacent pairs that are out of order. -/
theorem orderedInsert_chain (x : Process) (l : List Process)
    (h : List.Chain' (fun a b => b.lt a = false) l) :
    List.Chain' (fun a b => b.lt a = false) (orderedInsert x l) := by
  induction l with
  | nil => simp [orderedInsert]
  | cons y ys ih =>
    simp only [orderedInsert]
    by_cases hxy : x.lt y = true
    · simp only [hxy, if_true]
      exact List.Chain'.cons (Process.lt_asymm x y hxy) h
    · have hxy' : x.lt y = false := by simpa using hxy
      simp only [hxy', Bool.false_eq_true, if_false]
      have ih' := ih h.tail
      cases ys with
      | nil =>
        simp only [orderedInsert]
        exact List.Chain'.cons hxy' (List.chain'_singleton x)
      | cons z zs =>
        have hyz : z.lt y = false := (List.chain'_cons.1 h).1
        simp only [orderedInsert] at ih' ⊢
        by_cases hxz : x.lt z = true
        · simp only [hxz, if_true] at ih' ⊢
          exact List.Chain'.cons hxy' ih'
        · have hxz' : x.lt z = false := by simpa using hxz
          simp only [hxz', Bool.false_eq_true, if_false] at ih' ⊢
          exact List.Chain'.cons hyz ih'

/-- The sorted sequence has no adjacent pair that is out of order. -/
theorem std_sort_chain (l : List Process) :
    List.Chain' (fun a b => b.lt a = false) (std_sort l) := by
  induction l with
  | nil => exact List.chain'_nil
  | cons x xs ih => exact orderedInsert_chain x (std_sort xs) ih

/-- C15: when `System::Processes` returns, no two adjacent elements `a`, `b` of the
returned sequence are out of order, that is, `b < a` does not hold.  This holds for every
tracked collection, every content of `/proc` and every iteration order of the sets. -/
theorem System.Processes_sorted (iter : IterOrder) (fs : ProcFs) (self result : System)
    (hret : self.Processes iter fs = Except.ok result) :
    List.Chain' (fun a b => b.lt a = false) result.processes_ := by
  unfold System.Processes at hret
  split at hret
  · simp at hret
  · simp only at hret
    split at hret
    · simp at hret
    · simp only [Except.ok.injEq] at hret
      subst hret
      exact std_sort_chain _

/-- C15, at the first poll of a system that finds the processes 1, 2 and 3. -/
theorem System.Processes_sorted_witness :
    (systemTracking []).Processes frontInsertOrder (fsLive dir123)
      = Except.ok (systemTracking [trackedProcess 3 3000000000 0,
          trackedProcess 2 3000000000 0, trackedProcess 1 3000000000 0]) ∧
    List.Chain' (fun a b => b.lt a = false)
      (systemTracking [trackedProcess 3 3000000000 0,
          trackedProcess 2 3000000000 0, trackedProcess 1 3000000000 0]).processes_ := by
  have h : (systemTracking []).Processes frontInsertOrder (fsLive dir123)
      = Except.ok (systemTracking [trackedProcess 3 3000000000 0,
          trackedProcess 2 3000000000 0, trackedProcess 1 3000000000 0]) := by decide
  exact ⟨h, System.Processes_sorted frontInsertOrder (fsLive dir123) _ _ h⟩

/-- C19 fails as stated: the line `cpu 1 2 three` is not a prefix token followed by ten
integers, yet `Processor::Utilization` does not fail on it: the fields that cannot be read
count as 0 and the call returns 1. -/
theorem Processor.Utilization_accepts_malformed_line :
    hasCpuLayout cpuLineMalformed = false ∧
    Processor.fresh.Utilization (some (cpuLineMalformed ++ "\n".toList))
      = Except.ok (FloatVal.finite 1, ⟨3, 0⟩) := by
  have ht : (parseCpuLine cpuLineMalformed).total_time = 3 := by decide
  have hi : (parseCpuLine cpuLineMalformed).idle_time = 0 := by decide
  refine ⟨by decide, ?_⟩
  rw [Processor.Utilization_of_line Processor.fresh _ cpuLineMalformed (by decide), ht, hi]
  simp only [FloatVal.div, Processor.fresh]
  norm_num

/-- C19, amended: `Processor::Utilization` fails exactly when the CPU accounting source
cannot be opened or is empty, so that no first line can be read, and it then raises
`std::logic_error`; whatever the first line contains, the call returns a value. -/
theorem Processor.Utilization_fails_iff (p : Processor) (f : Option Str) :
    ((∃ e, p.Utilization f = Except.error e) ↔ (f = none ∨ f = some [])) ∧
    (∀ e, p.Utilization f = Except.error e → ∃ what, e = Error.logic_error what) := by
  refine ⟨⟨?_, ?_⟩, ?_⟩
  · rintro ⟨e, he⟩
    cases f with
    | none => exact Or.inl rfl
    | some content =>
      cases content with
      | nil => exact Or.inr rfl
      | cons c cs => simp [Processor.Utilization, readStatLine, getline] at he
  · rintro (h | h)
    · subst h
      exact ⟨_, rfl⟩
    · subst h
      exact ⟨_, rfl⟩
  · intro e he
    cases f with
    | none =>
      simp only [Processor.Utilization, readStatLine, Except.error.injEq] at he
      exact ⟨_, he.symm⟩
    | some content =>
      cases content with
      | nil =>
        simp only [Processor.Utilization, readStatLine, getline, Except.error.injEq] at he
        exact ⟨_, he.symm⟩
      | cons c cs => simp [Processor.Utilization, readStatLine, getline] at he

/-! ## Decimal numbers in text -/

/-- The character of a decimal digit has the code `48 + k`. -/
theorem digitChar_toNat (k : Nat) (h : k < 10) : (Nat.digitChar k).toNat = 48 + k := by
  interval_cases k <;> rfl

/-- The character of a decimal digit is a digit. -/
theorem isdigit_digitChar (k : Nat) (h : k < 10) : isdigit (Nat.digitChar k) = true := by
  interval_cases k <;> rfl

/-- The digits come out the same for every sufficient fuel, in front of the accumulator. -/
theorem toDigitsCore_eq : ∀ (fuel n : Nat) (ds : List Char), n < fuel →
    Nat.toDigitsCore 10 fuel n ds = Nat.toDigitsCore 10 (n + 1) n [] ++ ds := by
  intro fuel
  induction fuel using Nat.strong_induction_on with
  | _ fuel ih =>
    intro n ds hn
    cases fuel with
    | zero => omega
    | succ k =>
      by_cases h0 : n / 10 = 0
      · simp [Nat.toDigitsCore, h0]
      · have hlt : n / 10 < n := by omega
        have e1 : Nat.toDigitsCore 10 (k + 1) n ds
            = Nat.toDigitsCore 10 k (n / 10) (Nat.digitChar (n % 10) :: ds) := by
          simp [Nat.toDigitsCore, h0]
        cases n with
        | zero => omega
        | succ m =>
          have e2 : Nat.toDigitsCore 10 (m + 1 + 1) (m + 1) []
              = Nat.toDigitsCore 10 (m + 1) ((m + 1) / 10) [Nat.digitChar ((m + 1) % 10)] := by
            simp [Nat.toDigitsCore, h0]
          rw [e1, e2, ih k (by omega) _ _ (by omega), ih (m + 1) (by omega) _ _ hlt]
          simp

/-- A number below ten is written with one digit. -/
theorem toDigits_of_lt_ten (n : Nat) (h : n < 10) : Nat.toDigits 10 n = [Nat.digitChar n] := by
  have h0 : n / 10 = 0 := by omega
  have h1 : n % 10 = n := by omega
  simp [Nat.toDigits, Nat.toDigitsCore, h0, h1]

/-- A number from ten on is written as its tens followed by its last digit. -/
theorem toDigits_of_ten_le (n : Nat) (h : 10 ≤ n) :
    Nat.toDigits 10 n = Nat.toDigits 10 (n / 10) ++ [Nat.digitChar (n % 10)] := by
  have h0 : ¬ n / 10 = 0 := by omega
  have e : Nat.toDigitsCore 10 (n + 1) n []
      = Nat.toDigitsCore 10 n (n / 10) [Nat.digitChar (n % 10)] := by
    simp [Nat.toDigitsCore, h0]
  rw [Nat.toDigits, e, toDigitsCore_eq n (n / 10) _ (by omega)]
  rfl

/-- The decimal text of a number is not empty. -/
theorem toDigits_ne_nil (n : Nat) : Nat.toDigits 10 n ≠ [] := by
  by_cases h : n < 10
  · simp [toDigits_of_lt_ten n h]
  · simp [toDigits_of_ten_le n (by omega)]

/-- The decimal text of a number consists of digits. -/
theorem isdigit_of_mem_toDigits : ∀ (n : Nat) (c : Char), c ∈ Nat.toDigits 10 n →
    isdigit c = true := by
  intro n
  induction n using Nat.strong_induction_on with
  | _ n ih =>
    intro c hc
    by_cases h : n < 10
    · rw [toDigits_of_lt_ten n h, List.mem_singleton] at hc
      exact hc ▸ isdigit_digitChar n h
    · rw [toDigits_of_ten_le n (by omega), List.mem_append, List.mem_singleton] at hc
      rcases hc with hc | hc
      · exact ih (n / 10) (by omega) c hc
      · exact hc ▸ isdigit_digitChar (n % 10) (by omega)

/-- Reading one more digit. -/
theorem digitsToNat_append_singleton (ds : List Char) (c : Char) :
    digitsToNat (ds ++ [c]) = 10 * digitsToNat ds + (c.toNat - 48) := by
  simp [digitsToNat, List.foldl_append]

/-- Reading the decimal text of a number gives the number back. -/
theorem digitsToNat_toDigits : ∀ n : Nat, digitsToNat (Nat.toDigits 10 n) = n := by
  intro n
  induction n using Nat.strong_induction_on with
  | _ n ih =>
    by_cases h : n < 10
    · rw [toDigits_of_lt_ten n h]
      simp [digitsToNat, digitChar_toNat n h]
    · rw [toDigits_of_ten_le n (by omega), digitsToNat_append_singleton,
        ih (n / 10) (by omega), digitChar_toNat (n % 10) (by omega)]
      omega

/-- A leading zero does not change the number read. -/
theorem digitsToNat_zero_cons (ds : List Char) : digitsToNat ('0' :: ds) = digitsToNat ds := by
  simp [digitsToNat]

/-- Dropping a run whose characters all satisfy the test. -/
theorem dropWhile_append_of_all (p : Char → Bool) (l r : List Char)
    (h : ∀ c ∈ l, p c = true) : (l ++ r).dropWhile p = r.dropWhile p := by
  induction l with
  | nil => rfl
  | cons x xs ih =>
    have hx : p x = true := h x (List.mem_cons_self _ _)
    simp only [List.cons_append, List.dropWhile_cons, hx, if_true]
    exact ih (fun c hc => h c (List.mem_cons_of_mem _ hc))

/-- Taking a run whose characters all satisfy the test. -/
theorem takeWhile_append_of_all (p : Char → Bool) (l r : List Char)
    (h : ∀ c ∈ l, p c = true) : (l ++ r).takeWhile p = l ++ r.takeWhile p := by
  induction l with
  | nil => rfl
  | cons x xs ih =>
    have hx : p x = true := h x (List.mem_cons_self _ _)
    simp only [List.cons_append, List.takeWhile_cons, hx, if_true]
    rw [ih (fun c hc => h c (List.mem_cons_of_mem _ hc))]

/-- Nothing is taken when the first character fails the test. -/
theorem takeWhile_of_head (p : Char → Bool) (r : List Char)
    (h : ∀ c ∈ r.head?, p c = false) : r.takeWhile p = [] := by
  cases r with
  | nil => rfl
  | cons x xs =>
    have hx : p x = false := h x (by simp)
    simp [List.takeWhile_cons, hx]

/-- Nothing is dropped when the first character fails the test. -/
theorem dropWhile_of_head (p : Char → Bool) (r : List Char)
    (h : ∀ c ∈ r.head?, p c = false) : r.dropWhile p = r := by
  cases r with
  | nil => rfl
  | cons x xs =>
    have hx : p x = false := h x (by simp)
    simp [List.dropWhile_cons, hx]

/-- A digit is not white space. -/
theorem isspace_of_isdigit (c : Char) (h : isdigit c = true) : isspace c = false := by
  simp only [isdigit, Bool.and_eq_true, decide_eq_true_eq] at h
  simp only [isspace, Bool.or_eq_false_iff, Bool.and_eq_false_iff, decide_eq_false_iff_not]
  omega

/-- A digit is not a sign. -/
theorem not_sign_of_isdigit (c : Char) (h : isdigit c = true) : ¬ (c = '-' ∨ c = '+') := by
  simp only [isdigit, Bool.and_eq_true, decide_eq_true_eq] at h
  rintro (e | e)
  · have : c.toNat = 45 := by rw [e]; rfl
    omega
  · have : c.toNat = 43 := by rw [e]; rfl
    omega

/-- What stream extraction and `strtol` see of a text that is white space, the decimal
text of `n`, and a rest that does not go on with a digit. -/
theorem decimal_scan (pad rest : Str) (n : Nat)
    (hpad : ∀ c ∈ pad, isspace c = true) (hrest : ∀ c ∈ rest.head?, isdigit c = false) :
    ∃ d ds, Nat.toDigits 10 n = d :: ds ∧ isdigit d = true ∧
      (pad ++ (Nat.toDigits 10 n ++ rest)).dropWhile isspace = d :: (ds ++ rest) ∧
      (d :: (ds ++ rest)).takeWhile isdigit = Nat.toDigits 10 n ∧
      (d :: (ds ++ rest)).dropWhile isdigit = rest := by
  obtain ⟨d, ds, hD⟩ : ∃ d ds, Nat.toDigits 10 n = d :: ds := by
    cases h : Nat.toDigits 10 n with
    | nil => exact absurd h (toDigits_ne_nil n)
    | cons d ds => exact ⟨d, ds, rfl⟩
  have hall : ∀ c ∈ d :: ds, isdigit c = true := fun c hc =>
    isdigit_of_mem_toDigits n c (hD ▸ hc)
  have hd : isdigit d = true := hall d (List.mem_cons_self _ _)
  refine ⟨d, ds, hD, hd, ?_, ?_, ?_⟩
  · rw [dropWhile_append_of_all isspace pad _ hpad, hD, List.cons_append,
      List.dropWhile_cons, isspace_of_isdigit d hd]
    simp
  · rw [← List.cons_append, takeWhile_append_of_all isdigit (d :: ds) rest hall,
      takeWhile_of_head isdigit rest hrest, List.append_nil, hD]
  · rw [← List.cons_append, dropWhile_append_of_all isdigit (d :: ds) rest hall,
      dropWhile_of_head isdigit rest hrest]

/-- The extraction `stream >> v` on white space followed by the decimal text of a number
of the range reads that number and leaves what follows it. -/
theorem IStream.extract_decimal (lo hi : Int) (pad rest : Str) (n : Nat) (cur : Int)
    (hpad : ∀ c ∈ pad, isspace c = true) (hrest : ∀ c ∈ rest.head?, isdigit c = false)
    (hlo : lo ≤ (n : Int)) (hhi : (n : Int) ≤ hi) :
    IStream.extract lo hi ⟨pad ++ (Nat.toDigits 10 n ++ rest), true⟩ cur
      = ((n : Int), ⟨rest, !rest.isEmpty⟩) := by
  obtain ⟨d, ds, hD, hd, h1, h2, h3⟩ := decimal_scan pad rest n hpad hrest
  have hsign := not_sign_of_isdigit d hd
  have hminus : ¬ d = '-' := fun e => hsign (Or.inl e)
  have hne : Nat.toDigits 10 n ≠ [] := toDigits_ne_nil n
  have hplus : ¬ d = '+' := fun e => hsign (Or.inr e)
  have a : ¬ (n : Int) < lo := by omega
  have b : ¬ hi < (n : Int) := by omega
  unfold IStream.extract
  simp only [if_true, h1, hminus, hplus, or_self, if_false, h2, h3, hne,
    digitsToNat_toDigits, a, b]

/-- The conversion of `std::stoi` and `std::stol` on white space followed by the decimal
text of a number of the range yields that number. -/
theorem stoiRange_decimal (lo hi : Int) (pad rest : Str) (n : Nat)
    (hpad : ∀ c ∈ pad, isspace c = true) (hrest : ∀ c ∈ rest.head?, isdigit c = false)
    (hlo : lo ≤ (n : Int)) (hhi : (n : Int) ≤ hi) :
    stoiRange lo hi (pad ++ (Nat.toDigits 10 n ++ rest)) = Except.ok (n : Int) := by
  obtain ⟨d, ds, hD, hd, h1, h2, h3⟩ := decimal_scan pad rest n hpad hrest
  have hsign := not_sign_of_isdigit d hd
  have hminus : ¬ d = '-' := fun e => hsign (Or.inl e)
  have hne : Nat.toDigits 10 n ≠ [] := toDigits_ne_nil n
  have hplus : ¬ d = '+' := fun e => hsign (Or.inr e)
  have a : ¬ (n : Int) < lo := by omega
  have b : ¬ hi < (n : Int) := by omega
  unfold stoiRange
  simp only [h1, hminus, hplus, or_self, if_false, h2, hne, digitsToNat_toDigits, a, b]

/-! ## system.cpp: memory -/

/-- The conversion of `System::MemoryUtilization` on a value of the form
`<number> kB` yields the number. -/
theorem stolWithoutSuffix_kB (pad : Str) (n : Nat) (hpad : ∀ c ∈ pad, isspace c = true)
    (hn : (n : Int) ≤ LONG_MAX) :
    stolWithoutSuffix (pad ++ (Nat.toDigits 10 n ++ " kB".toList)) = Except.ok (n : Int) := by
  have hlen : (pad ++ (Nat.toDigits 10 n ++ " kB".toList)).length
      = (pad ++ Nat.toDigits 10 n).length + 3 := by
    simp [List.length_append, Nat.add_assoc]
  have htake : (pad ++ (Nat.toDigits 10 n ++ " kB".toList)).take
      (pad ++ Nat.toDigits 10 n).length = pad ++ Nat.toDigits 10 n := by
    rw [← List.append_assoc, List.take_left']
    rfl
  have hstol : stol (pad ++ Nat.toDigits 10 n) = Except.ok (n : Int) := by
    have h := stoiRange_decimal LONG_MIN LONG_MAX pad [] n hpad (by simp)
      (by simp only [LONG_MIN]; omega) hn
    simpa [stol] using h
  unfold stolWithoutSuffix
  have hsub : sizeSub ((pad ++ (Nat.toDigits 10 n ++ " kB".toList)).length) 3
      = (pad ++ Nat.toDigits 10 n).length := by
    rw [hlen]
    simp [sizeSub]
  simp only [substr, hsub, Nat.not_lt_zero, if_false, List.drop_zero, htake, hstol]

/-- C16: for a `/proc/meminfo` from which the pairs `map` are read, where the values of
`MemTotal` and `MemFree` have the form `<number> kB` (after white space) with the numbers
`total > 0` and `free` in the range of `long`, `System::MemoryUtilization` returns
`(total - free) / total`. -/
theorem System.MemoryUtilization_eq (meminfo : Option Str) (map : StrMap)
    (padT padF : Str) (total free : Nat)
    (hmap : ExtractKeyValuePairsFromFile "/proc/meminfo".toList meminfo ":".toList
      = Except.ok map)
    (hT : map.find "MemTotal".toList = some (padT ++ (Nat.toDigits 10 total ++ " kB".toList)))
    (hF : map.find "MemFree".toList = some (padF ++ (Nat.toDigits 10 free ++ " kB".toList)))
    (hpadT : ∀ c ∈ padT, isspace c = true) (hpadF : ∀ c ∈ padF, isspace c = true)
    (htotal : 0 < total) (hTmax : (total : Int) ≤ LONG_MAX) (hFmax : (free : Int) ≤ LONG_MAX) :
    System.MemoryUtilization meminfo = Except.ok
      (FloatVal.finite ((((total : Int) - (free : Int) : Int) : ℚ) / (((total : Int)) : ℚ))) := by
  have hne : (total : Int) ≠ 0 := by omega
  simp only [System.MemoryUtilization, hmap, StrMap.at, hT, hF,
    stolWithoutSuffix_kB padT total hpadT hTmax, stolWithoutSuffix_kB padF free hpadF hFmax,
    FloatVal.div_of_ne_zero _ _ hne]

/-- C16, at `MemTotal` 1000000 kB and `MemFree` 250000 kB: the call returns 0.75. -/
theorem System.MemoryUtilization_eq_witness :
    ExtractKeyValuePairsFromFile "/proc/meminfo".toList meminfoFile ":".toList
      = Except.ok meminfoMap ∧
    System.MemoryUtilization meminfoFile = Except.ok (FloatVal.finite (75 / 100)) := by
  have hmap : ExtractKeyValuePairsFromFile "/proc/meminfo".toList meminfoFile ":".toList
      = Except.ok meminfoMap := by decide
  refine ⟨hmap, ?_⟩
  rw [System.MemoryUtilization_eq meminfoFile meminfoMap (List.replicate 8 ' ')
    (List.replicate 10 ' ') 1000000 250000 hmap (by decide) (by decide) (by decide)
    (by decide) (by decide) (by decide) (by decide)]
  norm_num

/-! ## format.cpp -/

/-- The two-digit format of a natural number. -/
theorem formatInt02_natCast (k : Nat) :
    formatInt02 (k : Int) =
      if (Nat.toDigits 10 k).length < 2 then '0' :: Nat.toDigits 10 k
      else Nat.toDigits 10 k := by
  have h : ¬ (k : Int) < 0 := by omega
  simp only [formatInt02, h, if_false, Int.natAbs_ofNat]

/-- Below one hundred the two-digit format is the tens digit and the units digit. -/
theorem formatInt02_of_lt_hundred (k : Nat) (h : k < 100) :
    formatInt02 (k : Int) = [Nat.digitChar (k / 10), Nat.digitChar (k % 10)] := by
  rw [formatInt02_natCast]
  by_cases h10 : k < 10
  · have e0 : k / 10 = 0 := by omega
    have e1 : k % 10 = k := by omega
    rw [toDigits_of_lt_ten k h10, e0, e1]
    rfl
  · rw [toDigits_of_ten_le k (by omega), toDigits_of_lt_ten (k / 10) (by omega)]
    rfl

/-- The two-digit format consists of digits. -/
theorem isdigit_of_mem_formatInt02 (k : Nat) (c : Char) (hc : c ∈ formatInt02 (k : Int)) :
    isdigit c = true := by
  rw [formatInt02_natCast] at hc
  split_ifs at hc
  · rcases List.mem_cons.1 hc with e | e
    · rw [e]; rfl
    · exact isdigit_of_mem_toDigits k c e
  · exact isdigit_of_mem_toDigits k c hc

/-- Reading the two-digit format gives the number back. -/
theorem digitsToNat_formatInt02 (k : Nat) : digitsToNat (formatInt02 (k : Int)) = k := by
  rw [formatInt02_natCast]
  split_ifs
  · rw [digitsToNat_zero_cons, digitsToNat_toDigits]
  · exact digitsToNat_toDigits k

/-- A digit is not a colon. -/
theorem ne_colon_of_isdigit (c : Char) (h : isdigit c = true) : (c != ':') = true := by
  simp only [isdigit, Bool.and_eq_true, decide_eq_true_eq] at h
  simp only [bne_iff_ne, ne_eq]
  intro e
  have : c.toNat = 58 := by rw [e]; rfl
  omega

/-- Reading back three fields of digits separated by colons. -/
theorem readElapsedTime_fields (a b c : Str) (ha : ∀ x ∈ a, isdigit x = true)
    (hb : ∀ x ∈ b, isdigit x = true) (hc : ∀ x ∈ c, isdigit x = true) :
    readElapsedTime (a ++ ':' :: b ++ ':' :: c)
      = (digitsToNat a : Int) * 3600 + (digitsToNat b : Int) * 60 + (digitsToNat c : Int) := by
  have ha' : ∀ x ∈ a, (fun c => c != ':') x = true := fun x hx => ne_colon_of_isdigit x (ha x hx)
  have hb' : ∀ x ∈ b, (fun c => c != ':') x = true := fun x hx => ne_colon_of_isdigit x (hb x hx)
  have hc' : ∀ x ∈ c, (fun c => c != ':') x = true := fun x hx => ne_colon_of_isdigit x (hc x hx)
  have hcolon : ∀ r : Str, ∀ x ∈ (':' :: r).head?, (fun c => c != ':') x = false := by
    intro r x hx
    simp only [List.head?_cons, Option.mem_def, Option.some.injEq] at hx
    subst hx
    rfl
  have e : a ++ ':' :: b ++ ':' :: c = a ++ (':' :: (b ++ ':' :: c)) := by simp
  have t1 : (a ++ (':' :: (b ++ ':' :: c))).takeWhile (fun c => c != ':') = a := by
    rw [takeWhile_append_of_all _ a _ ha', takeWhile_of_head _ _ (hcolon _), List.append_nil]
  have d1 : ((a ++ (':' :: (b ++ ':' :: c))).dropWhile (fun c => c != ':')).drop 1
      = b ++ ':' :: c := by
    rw [dropWhile_append_of_all _ a _ ha', dropWhile_of_head _ _ (hcolon _)]
    rfl
  have t2 : (b ++ ':' :: c).takeWhile (fun c => c != ':') = b := by
    rw [takeWhile_append_of_all _ b _ hb', takeWhile_of_head _ _ (hcolon _), List.append_nil]
  have d2 : ((b ++ ':' :: c).dropWhile (fun c => c != ':')).drop 1 = c := by
    rw [dropWhile_append_of_all _ b _ hb', dropWhile_of_head _ _ (hcolon _)]
    rfl
  rw [e]
  simp only [readElapsedTime, t1, d1, t2, d2]

/-- The fields `Format::ElapsedTime` formats for a non-negative number of seconds. -/
theorem ElapsedTime_natCast (n : Nat) :
    ElapsedTime (n : Int) =
      formatInt02 ((n / 3600 : Nat) : Int) ++ ':' :: formatInt02 ((n % 3600 / 60 : Nat) : Int)
        ++ ':' :: formatInt02 ((n % 60 : Nat) : Int) := by
  have e1 : Int.tdiv (n : Int) 3600 = ((n / 3600 : Nat) : Int) := (Int.ofNat_tdiv n 3600).symm
  have e2 : Int.tmod (n : Int) 3600 = ((n % 3600 : Nat) : Int) := (Int.ofNat_tmod n 3600).symm
  have e3 : Int.tdiv ((n % 3600 : Nat) : Int) 60 = ((n % 3600 / 60 : Nat) : Int) :=
    (Int.ofNat_tdiv (n % 3600) 60).symm
  have e4 : Int.tmod (n : Int) 60 = ((n % 60 : Nat) : Int) := (Int.ofNat_tmod n 60).symm
  simp only [ElapsedTime, e1, e2, e3, e4]

/-- C17: for a number of seconds `n` below 360000, `Format::ElapsedTime` is the
8-character text of the two digits of the hours `n / 3600`, a colon, the two digits of
the minutes `n % 3600 / 60`, a colon, and the two digits of the seconds `n % 60`; the
minutes and the seconds are below 60, and hours, minutes and seconds add up to `n`.  For
every `n`, also from 360000 on, reading the three fields back gives `n`. -/
theorem ElapsedTime_spec (n : Nat) :
    (n < 360000 →
      ElapsedTime (n : Int) =
        [Nat.digitChar (n / 3600 / 10), Nat.digitChar (n / 3600 % 10), ':',
         Nat.digitChar (n % 3600 / 60 / 10), Nat.digitChar (n % 3600 / 60 % 10), ':',
         Nat.digitChar (n % 60 / 10), Nat.digitChar (n % 60 % 10)]) ∧
    n % 3600 / 60 < 60 ∧ n % 60 < 60 ∧
    n / 3600 * 3600 + n % 3600 / 60 * 60 + n % 60 = n ∧
    readElapsedTime (ElapsedTime (n : Int)) = (n : Int) := by
  refine ⟨?_, by omega, by omega, by omega, ?_⟩
  · intro h
    rw [ElapsedTime_natCast, formatInt02_of_lt_hundred (n / 3600) (by omega),
      formatInt02_of_lt_hundred (n % 3600 / 60) (by omega),
      formatInt02_of_lt_hundred (n % 60) (by omega)]
    rfl
  · rw [ElapsedTime_natCast, readElapsedTime_fields _ _ _
      (isdigit_of_mem_formatInt02 _) (isdigit_of_mem_formatInt02 _)
      (isdigit_of_mem_formatInt02 _), digitsToNat_formatInt02, digitsToNat_formatInt02,
      digitsToNat_formatInt02]
    omega

/-- C17, at 3661 seconds, formatted as `01:01:01`, and at 360000 seconds, formatted with a
three-digit hours field that reads back as 360000. -/
theorem ElapsedTime_spec_witness :
    ElapsedTime ((3661 : Nat) : Int) = "01:01:01".toList ∧
    ElapsedTime ((360000 : Nat) : Int) = "100:00:00".toList ∧
    readElapsedTime (ElapsedTime ((360000 : Nat) : Int)) = ((360000 : Nat) : Int) :=
  ⟨((ElapsedTime_spec 3661).1 (by decide)).trans (by decide), by decide,
   (ElapsedTime_spec 360000).2.2.2.2⟩

/-! ## process.cpp: the owner of a process -/

/-- The owner `FetchProcessOwnerUidAndName` reads from a line `Uid:`, one character,
white space and the decimal text of `n`: the id is `n`, and the name is asked of
`FetchUserName`. -/
theorem ownerFromUidLine_decimal (passwd : Option Str) (r : UidResolver)
    (pad rest : Str) (c : Char) (n : Nat)
    (hlen : ("Uid:".toList ++ c :: (pad ++ (Nat.toDigits 10 n ++ rest))).length < 2 ^ 64)
    (hpad : ∀ x ∈ pad, isspace x = true) (hrest : ∀ x ∈ rest.head?, isdigit x = false)
    (hn : (n : Int) ≤ INT_MAX) :
    ownerFromUidLine passwd r ("Uid:".toList ++ c :: (pad ++ (Nat.toDigits 10 n ++ rest)))
      = match r.FetchUserName passwd (n : Int) with
        | Except.error e => Except.error e
        | Except.ok res =>
          Except.ok (((n : Int), res.name.getD (uidLabel (n : Int))), res.resolver) := by
  have hlen5 : ¬ ("Uid:".toList ++ c :: (pad ++ (Nat.toDigits 10 n ++ rest))).length < 5 := by
    simp [List.length_append]
  have hdrop : ("Uid:".toList ++ c :: (pad ++ (Nat.toDigits 10 n ++ rest))).drop 5
      = pad ++ (Nat.toDigits 10 n ++ rest) := rfl
  have htake : (pad ++ (Nat.toDigits 10 n ++ rest)).take npos
      = pad ++ (Nat.toDigits 10 n ++ rest) := by
    apply List.take_of_length_le
    have h5 : ("Uid:".toList ++ c :: (pad ++ (Nat.toDigits 10 n ++ rest))).length
        = (pad ++ (Nat.toDigits 10 n ++ rest)).length + 5 := by
      simp [List.length_append]
    simp only [npos]
    omega
  have hex := IStream.extract_decimal INT_MIN INT_MAX pad rest n 0 hpad hrest
    (by simp only [INT_MIN]; omega) hn
  simp only [ownerFromUidLine, substr, hlen5, if_false, hdrop, htake, IStream.extractInt,
    IStream.ofLine, hex]

/-- C20 fails as stated: the first number of the line `Uid:\t3000000000...` is
3000000000, but the extraction into an `int` stops at the largest `int`, so the owner id
is 2147483647 and the owner name `UID(2147483647)`.  The first number of the line
`Uid:1001` is 1001, but the code skips the character after `Uid:` and reads 001: the owner
is the user 1, `daemon`.  And when the id is not in the mapping and the identity database
cannot be opened, `FetchUserName` throws and so does the construction. -/
theorem Process.construct_owner_not_first_number :
    (getlines "Name:\tcat\nUid:\t3000000000\t3000000000\nGid:\t5\n".toList).find?
        (fun l => l.take 4 == "Uid:".toList)
      = some ("Uid:".toList ++ '\t' ::
          ([] ++ (Nat.toDigits 10 3000000000 ++ "\t3000000000".toList))) ∧
    Process.construct fsUidEdge 7 0 ⟨freshThree⟩
      = Except.ok (⟨7, 0, 0, "-".toList, 2147483647, "UID(2147483647)".toList, 0, 0⟩,
          ⟨freshThree⟩) ∧
    Process.construct fsUidEdge 8 0 ⟨freshThree⟩
      = Except.ok (⟨8, 0, 0, "-".toList, 1, "daemon".toList, 0, 0⟩, ⟨freshThree⟩) ∧
    Process.construct fsUidNoPasswd 9 0 ⟨freshThree⟩
      = Except.error (Error.OpenFileError "/etc/passwd".toList) := by
  decide

/-- C20, amended: at the construction of a `Process`, when the first `Uid:` line of the
status file is `Uid:`, one character that is neither a digit nor a minus sign, optional
white space and the decimal text of a number `n` that is at most 2147483647, the largest
`int`, and `FetchUserName(n)` returns, the owner id is `n` and the owner name is the
returned name, or the label `UID(n)` when none is returned.  When the status file cannot
be opened or has no `Uid:` line, the owner id is 0 and the owner name is `-`. -/
theorem Process.construct_owner (fs : ProcFs) (pid boot_time : Int) (r : UidResolver) :
    (∀ (content line pad rest : Str) (c : Char) (n : Nat),
      fs.status pid = some content →
      (getlines content).find? (fun l => l.take 4 == "Uid:".toList) = some line →
      line = "Uid:".toList ++ c :: (pad ++ (Nat.toDigits 10 n ++ rest)) →
      line.length < 2 ^ 64 →
      isdigit c = false →
      c ≠ '-' →
      (∀ x ∈ pad, isspace x = true) →
      (∀ x ∈ rest.head?, isdigit x = false) →
      (n : Int) ≤ INT_MAX →
      ∀ res, r.FetchUserName fs.passwd (n : Int) = Except.ok res →
        ∃ p, Process.construct fs pid boot_time r = Except.ok (p, res.resolver) ∧
          p.uid_ = (n : Int) ∧
          (∀ name, res.name = some name → p.username_ = name) ∧
          (res.name = none → p.username_ = uidLabel (n : Int))) ∧
    ((fs.status pid = none ∨
        ∃ content, fs.status pid = some content ∧
          (getlines content).find? (fun l => l.take 4 == "Uid:".toList) = none) →
      ∃ p, Process.construct fs pid boot_time r = Except.ok (p, r) ∧
        p.uid_ = 0 ∧ p.username_ = "-".toList) := by
  constructor
  · intro content line pad rest c n hstatus hfirst hline hlen _ _ hpad hrest hn res hres
    subst hline
    have ho := ownerFromUidLine_decimal fs.passwd r pad rest c n hlen hpad hrest hn
    rw [hres] at ho
    refine ⟨⟨pid, boot_time, CalculateProcessStartTime fs pid boot_time,
      FetchCommandLine fs pid, (n : Int), res.name.getD (uidLabel (n : Int)),
      CalculateProcessStartTime fs pid boot_time, 0⟩, ?_, rfl, ?_, ?_⟩
    · simp only [Process.construct, FetchProcessOwnerUidAndName, hstatus, hfirst, ho]
    · intro name hname
      simp [hname]
    · intro hnone
      simp [hnone]
  · rintro (h | ⟨content, h, hnone⟩)
    · exact ⟨⟨pid, boot_time, CalculateProcessStartTime fs pid boot_time,
        FetchCommandLine fs pid, 0, "-".toList, CalculateProcessStartTime fs pid boot_time, 0⟩,
        by simp only [Process.construct, FetchProcessOwnerUidAndName, h], rfl, rfl⟩
    · exact ⟨⟨pid, boot_time, CalculateProcessStartTime fs pid boot_time,
        FetchCommandLine fs pid, 0, "-".toList, CalculateProcessStartTime fs pid boot_time, 0⟩,
        by simp only [Process.construct, FetchProcessOwnerUidAndName, h, hnone], rfl, rfl⟩

/-- C20 amended, at a process of the known user 1001, a process of the unknown user 4242
and a process whose status file has no `Uid:` line. -/
theorem Process.construct_owner_witness :
    Process.construct fsUids 7 0 ⟨freshThree⟩
      = Except.ok (⟨7, 0, 0, "-".toList, 1001, "bob".toList, 0, 0⟩, ⟨freshThree⟩) ∧
    Process.construct fsUids 9 0 ⟨freshThree⟩
      = Except.ok (⟨9, 0, 0, "-".toList, 4242, "UID(4242)".toList, 0, 0⟩, ⟨freshThree⟩) ∧
    (∃ p, Process.construct fsUids 9 0 ⟨freshThree⟩ = Except.ok (p, ⟨freshThree⟩) ∧
      p.uid_ = 4242 ∧
      (∀ name, (none : Option Str) = some name → p.username_ = name) ∧
      ((none : Option Str) = none → p.username_ = uidLabel 4242)) ∧
    (∃ p, Process.construct fsUids 5 0 ⟨freshThree⟩ = Except.ok (p, ⟨freshThree⟩) ∧
      p.uid_ = 0 ∧ p.username_ = "-".toList) :=
  ⟨by decide, by decide,
   (Process.construct_owner fsUids 9 0 ⟨freshThree⟩).1
     "Name:\tcat\nUid:\t4242\t4242\t4242\t4242\n".toList
     "Uid:\t4242\t4242\t4242\t4242".toList [] "\t4242\t4242\t4242".toList '\t' 4242
     (by decide) (by decide) (by decide) (by decide) (by decide) (by decide) (by decide)
     (by decide) (by decide) ⟨none, ⟨freshThree⟩, 1⟩ (by decide),
   (Process.construct_owner fsUids 5 0 ⟨freshThree⟩).2
     (Or.inr ⟨"Name:\tcat\n".toList, by decide, by decide⟩)⟩

/-! ## system.cpp: the computed differences and the distinctness of pids -/

/-- C23 (the code departs from the claim): with the tracked pids 1, 2, 3 enumerated in
this order and the live pids 2, 3, 4 enumerated as 4, 3, 2, the computed `pids_to_add`
is the whole live set and the computed `pids_to_remove` the whole tracked set, although
the set differences are 4 alone and 1 alone: the pids 2 and 3 are in both sets and in
both results. -/
theorem System.Processes_differences_wrong :
    frontInsertOrder [3, 2, 1] = [1, 2, 3] ∧
    frontInsertOrder [2, 3, 4] = [4, 3, 2] ∧
    pidsToAdd frontInsertOrder [4, 3, 2] [1, 2, 3] = [2, 3, 4] ∧
    pidsToRemove frontInsertOrder [4, 3, 2] [1, 2, 3] = [3, 2, 1] ∧
    ([4, 3, 2].filter (fun pid => !([1, 2, 3] : List Int).contains pid) = [(4 : Int)]) ∧
    ([1, 2, 3].filter (fun pid => !([4, 3, 2] : List Int).contains pid) = [(1 : Int)]) := by
  decide

/-- A measurement keeps the pid. -/
theorem Process.CpuUtilization_Pid (self : Process) (fs : ProcFs)
    (now_uptime now_measured : Int) :
    (self.CpuUtilization fs now_uptime now_measured).2.Pid = self.Pid := by
  unfold Process.CpuUtilization
  split_ifs
  · rfl
  · split
    · rfl
    · split <;> rfl

/-- Measurements keep the sequence of pids. -/
theorem map_Pid_of_measured (l l1 : List Process)
    (h : List.Forall₂
      (fun p q => ∃ fs now_uptime now_measured,
        q = (p.CpuUtilization fs now_uptime now_measured).2) l l1) :
    l1.map Process.Pid = l.map Process.Pid := by
  induction h with
  | nil => rfl
  | cons hpq _ ih =>
    obtain ⟨fs, n1, n2, rfl⟩ := hpq
    simp only [List.map_cons, ih, Process.CpuUtilization_Pid]

/-- The pids of the processes the removal step keeps are tracked pids outside the removal
set, and they do not repeat when the tracked pids do not. -/
theorem removeObsolete_pids (pids_to_remove : List Int) (processes : List Process)
    (h : (processes.map Process.Pid).Nodup) :
    ((removeObsolete pids_to_remove processes).map Process.Pid).Nodup ∧
    ∀ pid ∈ (removeObsolete pids_to_remove processes).map Process.Pid,
      pid ∈ processes.map Process.Pid ∧ pid ∉ pids_to_remove := by
  constructor
  · unfold removeObsolete
    split_ifs
    · exact h
    · exact h.sublist ((List.filter_sublist _).map _)
  · intro pid hpid
    obtain ⟨p, hp, rfl⟩ := List.mem_map.1 hpid
    have := (mem_removeObsolete pids_to_remove processes p).1 hp
    exact ⟨List.mem_map.2 ⟨p, this.1, rfl⟩, this.2⟩

/-- One call of `System::Processes` keeps the tracked pids distinct. -/
theorem System.Processes_nodup_step (iter : IterOrder) (hiter : IsIterationOrder iter)
    (fs : ProcFs) (self result : System)
    (hnodup : (self.processes_.map Process.Pid).Nodup)
    (hret : self.Processes iter fs = Except.ok result) :
    (result.processes_.map Process.Pid).Nodup := by
  unfold System.Processes at hret
  split at hret
  · simp at hret
  · rename_i current_pids hlive
    have hc := FetchProcessIds_nodup iter hiter fs current_pids hlive
    have hp := hiter.nodup (self.processes_.map Process.Pid)
    simp only at hret
    split at hret
    · simp at hret
    · rename_i processes resolver he
      simp only [Except.ok.injEq] at hret
      subst hret
      have hpids := emplaceAll_map_Pid fs self.boot_time_ _ _ _ _ _ he
      have hperm : (List.map Process.Pid (std_sort processes)).Perm
          (List.map Process.Pid processes) := (std_sort_perm processes).map _
      simp only
      rw [hperm.nodup_iff, hpids]
      obtain ⟨hk1, hk2⟩ := removeObsolete_pids
        (pidsToRemove iter current_pids (iter (self.processes_.map Process.Pid)))
        self.processes_ hnodup
      refine List.Nodup.append hk1 (hiter.nodup _) ?_
      intro pid hkept hadd
      obtain ⟨hprev, hnot⟩ := hk2 pid hkept
      simp only [pidsToAdd, pidsToRemove, hiter.mem_iff] at hadd hnot
      have hprev' : pid ∈ iter (self.processes_.map Process.Pid) :=
        (hiter.mem_iff _ _).2 hprev
      have hcur : pid ∈ current_pids := mem_of_mem_set_difference _ _ _ hadd
      exact hnot ((mem_set_difference_comm current_pids _ hc hp pid hcur hprev').1 hadd)

/-- C22: for every iteration order of the sets, a call of `System::Processes` on a
tracked collection without a repeated pid returns a collection without a repeated pid,
and every state reached from a system without tracked processes by calls of
`Processes()` and of `CpuUtilization()` has pairwise distinct pids. -/
theorem System.Processes_nodup (iter : IterOrder) (hiter : IsIterationOrder iter) :
    (∀ (fs : ProcFs) (self result : System),
      (self.processes_.map Process.Pid).Nodup →
      self.Processes iter fs = Except.ok result →
      (result.processes_.map Process.Pid).Nodup) ∧
    (∀ s : System, System.Reachable iter s → (s.processes_.map Process.Pid).Nodup) := by
  refine ⟨fun fs self result h1 h2 =>
    System.Processes_nodup_step iter hiter fs self result h1 h2, ?_⟩
  intro s hs
  induction hs with
  | start s h => simp [h]
  | poll s s1 fs _ h ih => exact System.Processes_nodup_step iter hiter fs s s1 ih h
  | measure s processes _ h ih =>
    have e := map_Pid_of_measured s.processes_ processes h
    simpa [e] using ih

/-- C22, at the front-insertion order: the second poll of the run `pollTwice`, from the
tracked pids 3, 2, 1 to the live pids 2, 3, 4, returns distinct pids. -/
theorem System.Processes_nodup_witness :
    (systemTracking [trackedProcess 3 10000000000 1300, trackedProcess 2 10000000000 1300,
        trackedProcess 1 10000000000 1300]).Processes frontInsertOrder (fsLive dir234)
      = Except.ok (systemTracking [trackedProcess 4 3000000000 0,
          trackedProcess 3 3000000000 0, trackedProcess 2 3000000000 0]) ∧
    ((systemTracking [trackedProcess 4 3000000000 0, trackedProcess 3 3000000000 0,
        trackedProcess 2 3000000000 0]).processes_.map Process.Pid).Nodup := by
  have h : (systemTracking [trackedProcess 3 10000000000 1300,
        trackedProcess 2 10000000000 1300,
        trackedProcess 1 10000000000 1300]).Processes frontInsertOrder (fsLive dir234)
      = Except.ok (systemTracking [trackedProcess 4 3000000000 0,
          trackedProcess 3 3000000000 0, trackedProcess 2 3000000000 0]) := by decide
  exact ⟨h, (System.Processes_nodup frontInsertOrder frontInsertOrder_isIterationOrder).1
    (fsLive dir234) _ _ (by decide) h⟩

/-! ## process.cpp: the positions of the consumed-time fields -/

/-- A text splits into a first piece and, when a separator occurs, the pieces of what
follows the first separator. -/
theorem splitOnChar_cons (sep : Char) : ∀ (l : Str) (p : Str) (rest : List Str),
    splitOnChar sep l = p :: rest →
    (∀ x ∈ p, x ≠ sep) ∧
    ((rest = [] ∧ l = p) ∨ (∃ l1, l = p ++ sep :: l1 ∧ splitOnChar sep l1 = rest)) := by
  intro l
  induction l with
  | nil =>
    intro p rest h
    simp only [splitOnChar, List.cons.injEq] at h
    obtain ⟨rfl, rfl⟩ := h
    exact ⟨by simp, Or.inl ⟨rfl, rfl⟩⟩
  | cons c cs ih =>
    intro p rest h
    by_cases hc : c = sep
    · simp only [splitOnChar, hc, if_true, List.cons.injEq] at h
      obtain ⟨rfl, rfl⟩ := h
      exact ⟨by simp, Or.inr ⟨cs, by simp [hc], rfl⟩⟩
    · simp only [splitOnChar, hc, if_false] at h
      cases hs : splitOnChar sep cs with
      | nil =>
        rw [hs] at h
        simp only [List.cons.injEq] at h
        obtain ⟨rfl, rfl⟩ := h
        cases cs with
        | nil => exact ⟨by simpa using hc, Or.inl ⟨rfl, rfl⟩⟩
        | cons d ds =>
          exfalso
          simp only [splitOnChar] at hs
          split_ifs at hs
          split at hs <;> simp at hs
      | cons t ts =>
        rw [hs] at h
        simp only [List.cons.injEq] at h
        obtain ⟨rfl, rfl⟩ := h
        obtain ⟨h1, h2⟩ := ih t ts hs
        refine ⟨?_, ?_⟩
        · intro x hx
          rcases List.mem_cons.1 hx with e | e
          · exact e ▸ hc
          · exact h1 x e
        · rcases h2 with ⟨e1, e2⟩ | ⟨l1, e1, e2⟩
          · exact Or.inl ⟨e1, by rw [e2]⟩
          · exact Or.inr ⟨l1, by rw [e1]; rfl, e2⟩

/-- Dropping through the first separator after a piece without separator. -/
theorem dropThrough_append (sep : Char) (p l1 : Str) (hp : ∀ x ∈ p, x ≠ sep) :
    dropThrough sep (p ++ sep :: l1) = some l1 := by
  induction p with
  | nil => simp [dropThrough]
  | cons x xs ih =>
    have hx : x ≠ sep := hp x (List.mem_cons_self _ _)
    simp only [List.cons_append, dropThrough, hx, if_false]
    exact ih (fun y hy => hp y (List.mem_cons_of_mem _ hy))

/-- The calls `ignore(max, sep)` step over one piece each while pieces remain. -/
theorem ignoreN_split (sep : Char) : ∀ (n : Nat) (l : Str) (pre rest : List Str),
    pre.length = n → rest ≠ [] → splitOnChar sep l = pre ++ rest →
    ∃ l1, IStream.ignoreN n ⟨l, true⟩ sep = ⟨l1, true⟩ ∧ splitOnChar sep l1 = rest := by
  intro n
  induction n with
  | zero =>
    intro l pre rest hlen _ h
    have : pre = [] := List.length_eq_zero.1 hlen
    subst this
    exact ⟨l, rfl, h⟩
  | succ k ih =>
    intro l pre rest hlen hrest h
    cases pre with
    | nil => simp at hlen
    | cons p ps =>
      simp only [List.length_cons, Nat.add_right_cancel_iff] at hlen
      obtain ⟨hp, h2⟩ := splitOnChar_cons sep l p (ps ++ rest) h
      rcases h2 with ⟨e, _⟩ | ⟨l1, e1, e2⟩
      · simp [hrest] at e
      · have hig : IStream.ignore ⟨l, true⟩ sep = ⟨l1, true⟩ := by
          simp only [IStream.ignore, if_true, e1, dropThrough_append sep p l1 hp]
        simp only [IStream.ignoreN, hig]
        exact ih l1 ps rest hlen hrest e2

/-- Four consecutive extractions on four space-delimited decimal numbers in the range of
`long` read the four numbers. -/
theorem extractLong_four (l : Str) (a b c d : Nat) (post : List Str)
    (h : splitOnChar ' ' l
      = Nat.toDigits 10 a :: Nat.toDigits 10 b :: Nat.toDigits 10 c :: Nat.toDigits 10 d :: post)
    (ha : (a : Int) ≤ LONG_MAX) (hb : (b : Int) ≤ LONG_MAX) (hc : (c : Int) ≤ LONG_MAX)
    (hd : (d : Int) ≤ LONG_MAX) :
    ∃ s1 s2 s3 s4,
      IStream.extractLong ⟨l, true⟩ 0 = ((a : Int), s1) ∧
      IStream.extractLong s1 0 = ((b : Int), s2) ∧
      IStream.extractLong s2 0 = ((c : Int), s3) ∧
      IStream.extractLong s3 0 = ((d : Int), s4) := by
  have hsp : isspace ' ' = true := rfl
  have hspd : isdigit ' ' = false := rfl
  have hlo : ∀ n : Nat, LONG_MIN ≤ (n : Int) := by
    intro n; simp only [LONG_MIN]; omega
  obtain ⟨-, h1⟩ := splitOnChar_cons ' ' l _ _ h
  rcases h1 with ⟨e, _⟩ | ⟨l1, e1, h1⟩
  · simp at e
  obtain ⟨-, h2⟩ := splitOnChar_cons ' ' l1 _ _ h1
  rcases h2 with ⟨e, _⟩ | ⟨l2, e2, h2⟩
  · simp at e
  obtain ⟨-, h3⟩ := splitOnChar_cons ' ' l2 _ _ h2
  rcases h3 with ⟨e, _⟩ | ⟨l3, e3, h3⟩
  · simp at e
  obtain ⟨-, h4⟩ := splitOnChar_cons ' ' l3 _ _ h3
  have hhead : ∀ r : Str, ∀ x ∈ (' ' :: r).head?, isdigit x = false := by
    intro r x hx
    simp only [List.head?_cons, Option.mem_def, Option.some.injEq] at hx
    exact hx ▸ hspd
  have hpad : ∀ x ∈ [' '], isspace x = true := by
    intro x hx
    rw [List.mem_singleton.1 hx]
    rfl
  have x1 := IStream.extract_decimal LONG_MIN LONG_MAX [] (' ' :: l1) a 0 (by simp)
    (hhead l1) (hlo a) ha
  have x2 := IStream.extract_decimal LONG_MIN LONG_MAX [' '] (' ' :: l2) b 0 hpad
    (hhead l2) (hlo b) hb
  have x3 := IStream.extract_decimal LONG_MIN LONG_MAX [' '] (' ' :: l3) c 0 hpad
    (hhead l3) (hlo c) hc
  subst e1 e2 e3
  rcases h4 with ⟨_, e4⟩ | ⟨l4, e4, _⟩
  · have x4 := IStream.extract_decimal LONG_MIN LONG_MAX [' '] [] d 0 hpad (by simp)
      (hlo d) hd
    subst e4
    exact ⟨_, _, _, _, x1, x2, x3, by simpa using x4⟩
  · have x4 := IStream.extract_decimal LONG_MIN LONG_MAX [' '] (' ' :: l4) d 0 hpad
      (hhead l4) (hlo d) hd
    subst e4
    exact ⟨_, _, _, _, x1, x2, x3, x4⟩

/-- The token at a position behind a list of pieces. -/
theorem getD_append_length (pre rest : List Str) (k : Nat) :
    (pre ++ rest).getD (pre.length + k) [] = rest.getD k [] := by
  induction pre with
  | nil => simp
  | cons p ps ih =>
    have e : (p :: ps).length + k = (ps.length + k) + 1 := by
      simp only [List.length_cons]; omega
    rw [e, List.cons_append, List.getD_cons_succ, ih]

/-- C25 fails as stated: in `statLine130` the tokens at the 0-indexed positions 14, 15, 16
and 17 are 40, 15, 5 and 20, with the sum 80, but `Process::CpuUtilization` sums 130, the
tokens 70, 40, 15 and 5 at the positions 13, 14, 15 and 16. -/
theorem totalTimeSpentTicks_not_positions_14_to_17 :
    24 ≤ (splitOnChar ' ' statLine130).length ∧
    tokenSum statLine130 [14, 15, 16, 17] = 80 ∧
    tokenSum statLine130 [13, 14, 15, 16] = 130 ∧
    totalTimeSpentTicks statLine130 = 130 ∧
    totalTimeSpentTicks statLine130 ≠ tokenSum statLine130 [14, 15, 16, 17] := by
  decide

/-- C25, amended: for every line whose tokens, delimited by single spaces, at the
0-indexed positions 13, 14, 15 and 16 (the 14th to 17th token) are decimal numbers in the
range of `long`, the consumed ticks that `Process::CpuUtilization` sums are these four
tokens. -/
theorem totalTimeSpentTicks_positions (line : Str) (pre post : List Str) (a b c d : Nat)
    (hpre : pre.length = 13)
    (hsplit : splitOnChar ' ' line
      = pre ++ Nat.toDigits 10 a :: Nat.toDigits 10 b :: Nat.toDigits 10 c
          :: Nat.toDigits 10 d :: post)
    (ha : (a : Int) ≤ LONG_MAX) (hb : (b : Int) ≤ LONG_MAX) (hc : (c : Int) ≤ LONG_MAX)
    (hd : (d : Int) ≤ LONG_MAX) :
    totalTimeSpentTicks line = (a : Int) + (b : Int) + (c : Int) + (d : Int) ∧
    tokenSum line [13, 14, 15, 16] = (a : Int) + (b : Int) + (c : Int) + (d : Int) := by
  constructor
  · have h13 := ignoreN_split ' ' 13 line pre
      (Nat.toDigits 10 a :: Nat.toDigits 10 b :: Nat.toDigits 10 c :: Nat.toDigits 10 d :: post)
      hpre (List.cons_ne_nil _ _) hsplit
    obtain ⟨l1, hig, hl1⟩ := h13
    have h4 := extractLong_four l1 a b c d post hl1 ha hb hc hd
    obtain ⟨s1, s2, s3, s4, x1, x2, x3, x4⟩ := h4
    unfold totalTimeSpentTicks
    rw [IStream.ofLine, hig]
    simp only [x1, x2, x3, x4]
  · have e13 : (13 : Nat) = pre.length + 0 := by omega
    have e14 : (14 : Nat) = pre.length + 1 := by omega
    have e15 : (15 : Nat) = pre.length + 2 := by omega
    have e16 : (16 : Nat) = pre.length + 3 := by omega
    simp only [tokenSum, hsplit, List.map_cons, List.map_nil, List.sum_cons, List.sum_nil]
    rw [e13, e14, e15, e16, getD_append_length, getD_append_length, getD_append_length,
      getD_append_length]
    simp only [List.getD_cons_succ, List.getD_cons_zero, digitsToNat_toDigits]
    omega

/-- C25 amended, at `statLine130`: the tokens 70, 40, 15 and 5 at the positions 13 to 16
are summed. -/
theorem totalTimeSpentTicks_positions_witness :
    totalTimeSpentTicks statLine130 = ((70 : Nat) : Int) + ((40 : Nat) : Int)
      + ((15 : Nat) : Int) + ((5 : Nat) : Int) ∧
    tokenSum statLine130 [13, 14, 15, 16] = ((70 : Nat) : Int) + ((40 : Nat) : Int)
      + ((15 : Nat) : Int) + ((5 : Nat) : Int) :=
  totalTimeSpentTicks_positions statLine130
    ["7".toList, "(cat)".toList, "S".toList, "1".toList, "7".toList, "7".toList, "0".toList,
     "-1".toList, "4194304".toList, "90".toList, "0".toList, "0".toList, "0".toList]
    ["20".toList, "0".toList, "1".toList, "0".toList, "300".toList, "2650112".toList,
     "130".toList]
    70 40 15 5 (by decide) (by decide) (by decide) (by decide) (by decide) (by decide)

/-! ## uid_resolver.cpp: the mapping built from the identity database -/

/-- The position `find` reports for a character that first occurs after a piece. -/
theorem findIdxFrom_append (c : Char) : ∀ (x rest : Str) (i : Nat), (∀ y ∈ x, y ≠ c) →
    findIdxFrom c (x ++ c :: rest) i = i + x.length := by
  intro x
  induction x with
  | nil => intro rest i _; simp [findIdxFrom]
  | cons y ys ih =>
    intro rest i h
    have hy : y ≠ c := h y (List.mem_cons_self _ _)
    have e := ih rest (i + 1) (fun z hz => h z (List.mem_cons_of_mem _ hz))
    show findIdxFrom c (y :: (ys ++ c :: rest)) i = i + (ys.length + 1)
    simp only [findIdxFrom, hy, if_false, e]
    omega

/-- The call `find(c, pos)` from the end of a first part on. -/
theorem find_after (front x rest : Str) (c : Char) (hx : ∀ y ∈ x, y ≠ c) :
    find (front ++ (x ++ c :: rest)) c front.length = front.length + x.length := by
  simp only [find, List.drop_left]
  exact findIdxFrom_append c x rest front.length hx

/-- The call `substr(pos, count)` from the end of a first part on. -/
theorem substr_after (front x : Str) (count : Nat) :
    substr (front ++ x) front.length count = Except.ok (x.take count) := by
  have h : ¬ (front ++ x).length < front.length := by
    simp [List.length_append]
  simp only [substr, h, if_false, List.drop_left]

/-- Removing the entries of another key does not change a lookup. -/
theorem UidMap.find_filter_ne (key key1 : Int) (h : ¬ key = key1) : ∀ m : UidMap,
    UidMap.find (m.filter (fun e => e.1 != key)) key1 = UidMap.find m key1 := by
  intro m
  induction m with
  | nil => rfl
  | cons e es ih =>
    obtain ⟨k, v⟩ := e
    by_cases hk : k = key
    · subst hk
      have hb : ((k, v).1 != k) = false := by simp
      simp only [List.filter_cons, hb, Bool.false_eq_true, if_false, ih, UidMap.find, h]
    · have hb : ((k, v).1 != key) = true := by simpa using hk
      simp only [List.filter_cons, hb, if_true, UidMap.find, ih]

/-- The lookup after an assignment. -/
theorem UidMap.find_assign (m : UidMap) (key key1 : Int) (value : Str) :
    (m.assign key value).find key1 = if key = key1 then some value else m.find key1 := by
  by_cases h : key = key1
  · simp [UidMap.assign, UidMap.find, h]
  · simp only [UidMap.assign, UidMap.find, h, if_false]
    exact UidMap.find_filter_ne key key1 h m

/-- A digit is not a colon (as an inequality). -/
theorem ne_colon_of_mem_toDigits (n : Nat) (y : Char) (hy : y ∈ Nat.toDigits 10 n) :
    y ≠ ':' := by
  have h := ne_colon_of_isdigit y (isdigit_of_mem_toDigits n y hy)
  simpa using h

/-- One iteration of the loop of `BuildUidsToUserNameMap` on the line of a well-formed
record assigns the name to the id. -/
theorem passwdLine_of_record (m : UidMap) (r : PasswdRecord) (h : r.wellFormed = true) :
    passwdLine m r.line = Except.ok (m.assign (r.uid : Int) r.name) := by
  obtain ⟨name, field2, uid, rest⟩ := r
  simp only [PasswdRecord.wellFormed, Bool.and_eq_true, List.all_eq_true, bne_iff_ne, ne_eq,
    decide_eq_true_eq, PasswdRecord.line] at h
  obtain ⟨⟨⟨hname, hfield⟩, huid⟩, hlen⟩ := h
  simp only [PasswdRecord.line]
  have hlen' : name.length + field2.length + (Nat.toDigits 10 uid).length + rest.length + 3
      < 2 ^ 64 - 1 := by
    simp only [List.length_append, List.length_cons, npos] at hlen
    omega
  have e1 : name ++ ':' :: (field2 ++ ':' :: (Nat.toDigits 10 uid ++ ':' :: rest))
      = [] ++ (name ++ ':' :: (field2 ++ ':' :: (Nat.toDigits 10 uid ++ ':' :: rest))) := rfl
  have e2 : name ++ ':' :: (field2 ++ ':' :: (Nat.toDigits 10 uid ++ ':' :: rest))
      = (name ++ [':']) ++ (field2 ++ ':' :: (Nat.toDigits 10 uid ++ ':' :: rest)) := by simp
  have e3 : name ++ ':' :: (field2 ++ ':' :: (Nat.toDigits 10 uid ++ ':' :: rest))
      = (name ++ ':' :: (field2 ++ [':'])) ++ (Nat.toDigits 10 uid ++ ':' :: rest) := by simp
  have f1 : find (name ++ ':' :: (field2 ++ ':' :: (Nat.toDigits 10 uid ++ ':' :: rest))) ':' 0
      = name.length := by
    have := find_after [] name (field2 ++ ':' :: (Nat.toDigits 10 uid ++ ':' :: rest)) ':'
      hname
    simpa using this
  have f2 : find (name ++ ':' :: (field2 ++ ':' :: (Nat.toDigits 10 uid ++ ':' :: rest))) ':'
      (name.length + 1) = name.length + 1 + field2.length := by
    have := find_after (name ++ [':']) field2 (Nat.toDigits 10 uid ++ ':' :: rest) ':' hfield
    rw [← e2] at this
    simpa using this
  have f3 : find (name ++ ':' :: (field2 ++ ':' :: (Nat.toDigits 10 uid ++ ':' :: rest))) ':'
      (name.length + 1 + field2.length + 1)
      = name.length + 1 + field2.length + 1 + (Nat.toDigits 10 uid).length := by
    have := find_after (name ++ ':' :: (field2 ++ [':'])) (Nat.toDigits 10 uid) rest ':'
      (ne_colon_of_mem_toDigits uid)
    rw [← e3] at this
    have el : (name ++ ':' :: (field2 ++ [':'])).length = name.length + 1 + field2.length + 1 := by
      simp [List.length_append]; omega
    rw [el] at this
    exact this
  have s1 : sizeAdd name.length 1 = name.length + 1 := by
    simp only [sizeAdd]; omega
  have s2 : sizeAdd (name.length + 1 + field2.length) 1 = name.length + 1 + field2.length + 1 := by
    simp only [sizeAdd]; omega
  have u1 : substr (name ++ ':' :: (field2 ++ ':' :: (Nat.toDigits 10 uid ++ ':' :: rest))) 0
      name.length = Except.ok name := by
    have := substr_after [] (name ++ ':' :: (field2 ++ ':' :: (Nat.toDigits 10 uid ++ ':' :: rest)))
      name.length
    simpa using this
  have u2 : substr (name ++ ':' :: (field2 ++ ':' :: (Nat.toDigits 10 uid ++ ':' :: rest)))
      (name.length + 1 + field2.length + 1)
      (name.length + 1 + field2.length + 1 + (Nat.toDigits 10 uid).length)
      = Except.ok (Nat.toDigits 10 uid ++ ':' :: rest.take (name.length + 1 + field2.length)) := by
    have := substr_after (name ++ ':' :: (field2 ++ [':'])) (Nat.toDigits 10 uid ++ ':' :: rest)
      (name.length + 1 + field2.length + 1 + (Nat.toDigits 10 uid).length)
    rw [← e3] at this
    have el : (name ++ ':' :: (field2 ++ [':'])).length = name.length + 1 + field2.length + 1 := by
      simp [List.length_append]; omega
    rw [el] at this
    rw [this]
    have et : name.length + 1 + field2.length + 1 + (Nat.toDigits 10 uid).length
        = (Nat.toDigits 10 uid).length + ((name.length + 1 + field2.length) + 1) := by omega
    rw [et, List.take_append, List.take_succ_cons]
  have hstoi : stoi (Nat.toDigits 10 uid ++ ':' :: rest.take (name.length + 1 + field2.length))
      = Except.ok (uid : Int) := by
    have := stoiRange_decimal INT_MIN INT_MAX []
      (':' :: rest.take (name.length + 1 + field2.length)) uid (by simp)
      (by intro x hx; simp only [List.head?_cons, Option.mem_def, Option.some.injEq] at hx
          rw [← hx]; rfl)
      (by simp only [INT_MIN]; omega) huid
    simpa [stoi] using this
  simp only [passwdLine, f1, u1, s1, f2, s2, f3, u2, hstoi]

/-- No record carries the id: no last name. -/
theorem lastNameOf_eq_none (uid : Int) : ∀ records : List PasswdRecord,
    (∀ r ∈ records, (r.uid : Int) ≠ uid) → lastNameOf records uid = none := by
  intro records
  induction records with
  | nil => intro _; rfl
  | cons r rs ih =>
    intro h
    have h1 := ih (fun q hq => h q (List.mem_cons_of_mem _ hq))
    have h2 : ¬ (r.uid : Int) = uid := h r (List.mem_cons_self _ _)
    simp only [lastNameOf, h1, h2, if_false]

/-- The last name of an id is the name of the record after which the id does not occur
again. -/
theorem lastNameOf_last (r : PasswdRecord) (back : List PasswdRecord)
    (hback : ∀ q ∈ back, q.uid ≠ r.uid) : ∀ front : List PasswdRecord,
    lastNameOf (front ++ r :: back) (r.uid : Int) = some r.name := by
  have hnone : lastNameOf back (r.uid : Int) = none :=
    lastNameOf_eq_none _ back (fun q hq e => hback q hq (by exact_mod_cast e))
  intro front
  induction front with
  | nil => simp only [List.nil_append, lastNameOf, hnone, if_true]
  | cons p ps ih =>
    show lastNameOf (p :: (ps ++ r :: back)) (r.uid : Int) = some r.name
    simp only [lastNameOf, ih]

/-- The loop of `BuildUidsToUserNameMap` over the lines of well-formed records succeeds,
and a lookup in the result gives the last name of the id, or what the map held before. -/
theorem passwdLines_of_records : ∀ (records : List PasswdRecord) (m : UidMap),
    (∀ r ∈ records, r.wellFormed = true) →
    ∃ m1, passwdLines m (records.map PasswdRecord.line) = Except.ok m1 ∧
      ∀ uid, m1.find uid =
        match lastNameOf records uid with
        | some name => some name
        | none => m.find uid := by
  intro records
  induction records with
  | nil => intro m _; exact ⟨m, rfl, fun uid => rfl⟩
  | cons r rs ih =>
    intro m h
    have hr := passwdLine_of_record m r (h r (List.mem_cons_self _ _))
    obtain ⟨m1, e1, e2⟩ := ih (m.assign (r.uid : Int) r.name)
      (fun q hq => h q (List.mem_cons_of_mem _ hq))
    refine ⟨m1, ?_, ?_⟩
    · simp only [List.map_cons, passwdLines, hr, e1]
    · intro uid
      rw [e2 uid, UidMap.find_assign]
      simp only [lastNameOf]
      cases lastNameOf rs uid with
      | some name => rfl
      | none =>
        by_cases hu : (r.uid : Int) = uid
        · simp only [hu, if_true]
        · simp only [hu, if_false]

/-- C24 fails as stated: every line of `passwdLargeUid` has the form
`name:field2:uid:rest` with a decimal id, but the id 4294967294 of its second line is
beyond the largest `int`: `std::stoi` throws `std::out_of_range` and no mapping is
built. -/
theorem BuildUidsToUserNameMap_large_uid_raises :
    getlines passwdLargeUid = recordsLargeUid.map PasswdRecord.line ∧
    BuildUidsToUserNameMap (some passwdLargeUid) = Except.error Error.out_of_range := by
  decide

/-- C24, amended: for every identity database whose lines are the lines
`name:field2:uid:rest` of well-formed records (no colon in the first two fields, the id a
decimal number that is at most 2147483647, the largest `int`), `BuildUidsToUserNameMap`
returns a mapping that maps the id of a record after which this id does not occur again
to the name of that record, and holds no id that no record carries. -/
theorem BuildUidsToUserNameMap_spec (content : Str) (records : List PasswdRecord)
    (hlines : getlines content = records.map PasswdRecord.line)
    (hwf : ∀ r ∈ records, r.wellFormed = true) :
    ∃ m, BuildUidsToUserNameMap (some content) = Except.ok m ∧
      (∀ front r back, records = front ++ r :: back → (∀ q ∈ back, q.uid ≠ r.uid) →
        m.find (r.uid : Int) = some r.name) ∧
      (∀ uid : Int, (∀ r ∈ records, (r.uid : Int) ≠ uid) → m.find uid = none) := by
  obtain ⟨m, e1, e2⟩ := passwdLines_of_records records [] hwf
  refine ⟨m, ?_, ?_, ?_⟩
  · simp only [BuildUidsToUserNameMap, hlines, e1]
  · intro front r back hrec hback
    rw [e2, hrec, lastNameOf_last r back hback front]
  · intro uid hno
    rw [e2, lastNameOf_eq_none uid records hno]
    rfl

/-- C24 amended, at a database in which the id 0 occurs on the first and on the third
line: the mapping holds the name of the third line for 0. -/
theorem BuildUidsToUserNameMap_spec_witness :
    getlines passwdRepeated = recordsRepeated.map PasswdRecord.line ∧
    BuildUidsToUserNameMap (some passwdRepeated)
      = Except.ok [(0, "toor".toList), (1001, "bob".toList)] ∧
    ∃ m, BuildUidsToUserNameMap (some passwdRepeated) = Except.ok m ∧
      (∀ front r back, recordsRepeated = front ++ r :: back → (∀ q ∈ back, q.uid ≠ r.uid) →
        m.find (r.uid : Int) = some r.name) ∧
      (∀ uid : Int, (∀ r ∈ recordsRepeated, (r.uid : Int) ≠ uid) → m.find uid = none) :=
  ⟨by decide, by decide,
   BuildUidsToUserNameMap_spec passwdRepeated recordsRepeated (by decide) (by decide)⟩

/-! ## parser_helper.cpp -/

/-- A text that starts with the separator, in terms of `take`. -/
theorem take_eq_iff_starts (separator l : Str) :
    l.take separator.length = separator ↔ ∃ after, l = separator ++ after := by
  constructor
  · intro h
    exact ⟨l.drop separator.length, by
      conv_lhs => rw [← List.take_append_drop separator.length l]
      rw [h]⟩
  · rintro ⟨after, rfl⟩
    simp

/-- The function `splitAtFirst` yields the first split when it yields something. -/
theorem splitAtFirst_some (separator : Str) : ∀ (l before after : Str),
    splitAtFirst separator l = some (before, after) → IsFirstSplit separator l before after := by
  intro l
  induction l with
  | nil =>
    intro before after h
    simp only [splitAtFirst] at h
    split_ifs at h with hs
    simp only [Option.some.injEq, Prod.mk.injEq] at h
    obtain ⟨rfl, rfl⟩ := h
    exact ⟨by simp [hs], fun _ _ _ => Nat.zero_le _⟩
  | cons c cs ih =>
    intro before after h
    simp only [splitAtFirst] at h
    split_ifs at h with hs
    · simp only [Option.some.injEq, Prod.mk.injEq] at h
      obtain ⟨rfl, rfl⟩ := h
      refine ⟨?_, fun _ _ _ => Nat.zero_le _⟩
      conv_lhs => rw [← List.take_append_drop separator.length (c :: cs)]
      rw [hs]
      rfl
    · cases hr : splitAtFirst separator cs with
      | none => rw [hr] at h; simp at h
      | some kv =>
        obtain ⟨k, v⟩ := kv
        rw [hr] at h
        simp only [Option.some.injEq, Prod.mk.injEq] at h
        obtain ⟨rfl, rfl⟩ := h
        obtain ⟨e, hmin⟩ := ih k v hr
        refine ⟨by rw [e]; rfl, ?_⟩
        intro before1 after1 e1
        cases before1 with
        | nil =>
          exfalso
          exact hs ((take_eq_iff_starts separator (c :: cs)).2 ⟨after1, by simpa using e1⟩)
        | cons d ds =>
          simp only [List.cons_append, List.cons.injEq] at e1
          have := hmin ds after1 e1.2
          simp only [List.length_cons]
          omega

/-- The function `splitAtFirst` yields nothing only when the separator does not occur. -/
theorem splitAtFirst_none (separator : Str) : ∀ l : Str,
    splitAtFirst separator l = none → ¬ Occurs separator l := by
  intro l
  induction l with
  | nil =>
    intro h
    simp only [splitAtFirst] at h
    split_ifs at h with hs
    rintro ⟨before, after, e⟩
    have e' := e.symm
    simp only [List.append_eq_nil] at e'
    exact hs e'.2.1
  | cons c cs ih =>
    intro h
    simp only [splitAtFirst] at h
    split_ifs at h with hs
    cases hr : splitAtFirst separator cs with
    | some kv => rw [hr] at h; simp at h
    | none =>
      rintro ⟨before, after, e⟩
      cases before with
      | nil =>
        exact hs ((take_eq_iff_starts separator (c :: cs)).2 ⟨after, by simpa using e⟩)
      | cons d ds =>
        simp only [List.cons_append, List.cons.injEq] at e
        exact ih hr ⟨ds, after, e.2⟩

/-- The first split is unique. -/
theorem IsFirstSplit.unique (separator l k v k1 v1 : Str)
    (h : IsFirstSplit separator l k v) (h1 : IsFirstSplit separator l k1 v1) :
    k = k1 ∧ v = v1 := by
  have hlen : k.length = k1.length :=
    Nat.le_antisymm (h.2 k1 v1 h1.1) (h1.2 k v h.1)
  have e : k ++ (separator ++ v) = k1 ++ (separator ++ v1) := h.1.symm.trans h1.1
  obtain ⟨e1, e2⟩ := List.append_inj e hlen
  exact ⟨e1, List.append_cancel_left e2⟩

/-- The function `splitAtFirst` yields exactly the first split. -/
theorem splitAtFirst_eq_some_iff (separator l k v : Str) :
    splitAtFirst separator l = some (k, v) ↔ IsFirstSplit separator l k v := by
  constructor
  · exact splitAtFirst_some separator l k v
  · intro h
    cases hr : splitAtFirst separator l with
    | none => exact absurd ⟨k, v, h.1⟩ (splitAtFirst_none separator l hr)
    | some kv =>
      obtain ⟨k0, v0⟩ := kv
      obtain ⟨e1, e2⟩ := IsFirstSplit.unique separator l k0 v0 k v
        (splitAtFirst_some separator l k0 v0 hr) h
      rw [e1, e2]

/-- The function `splitAtFirst` yields nothing exactly when the separator does not occur. -/
theorem splitAtFirst_eq_none_iff (separator l : Str) :
    splitAtFirst separator l = none ↔ ¬ Occurs separator l := by
  constructor
  · exact splitAtFirst_none separator l
  · intro h
    cases hr : splitAtFirst separator l with
    | none => rfl
    | some kv =>
      obtain ⟨k0, v0⟩ := kv
      exact absurd ⟨k0, v0, (splitAtFirst_some separator l k0 v0 hr).1⟩ h

/-- The call `line.find(separator)` reports the length of the text before the first
occurrence, or `npos`. -/
theorem findStrFrom_eq (separator : Str) : ∀ (l : Str) (i : Nat),
    findStrFrom separator l i =
      match splitAtFirst separator l with
      | none => npos
      | some (before, _) => i + before.length := by
  intro l
  induction l with
  | nil =>
    intro i
    simp only [findStrFrom, splitAtFirst]
    split_ifs <;> rfl
  | cons c cs ih =>
    intro i
    simp only [findStrFrom, splitAtFirst]
    split_ifs with hs
    · rfl
    · rw [ih (i + 1)]
      cases splitAtFirst separator cs with
      | none => rfl
      | some kv =>
        obtain ⟨k, v⟩ := kv
        show i + 1 + k.length = i + (k.length + 1)
        omega

/-- Removing the entries of another key does not change a lookup. -/
theorem StrMap.find_filter_other_key (key key1 : Str) (h : ¬ key = key1) : ∀ m : StrMap,
    StrMap.find (m.filter (fun e => e.1 != key)) key1 = StrMap.find m key1 := by
  intro m
  induction m with
  | nil => rfl
  | cons e es ih =>
    obtain ⟨k, v⟩ := e
    by_cases hk : k = key
    · subst hk
      have hb : ((k, v).1 != k) = false := by simp
      simp only [List.filter_cons, hb, Bool.false_eq_true, if_false, ih, StrMap.find, h]
    · have hb : ((k, v).1 != key) = true := by simpa using hk
      simp only [List.filter_cons, hb, if_true, StrMap.find, ih]

/-- The lookup after an assignment. -/
theorem StrMap.find_after_assign (m : StrMap) (key key1 value : Str) :
    (m.assign key value).find key1 = if key = key1 then some value else m.find key1 := by
  by_cases h : key = key1
  · simp [StrMap.assign, StrMap.find, h]
  · simp only [StrMap.assign, StrMap.find, h, if_false]
    exact StrMap.find_filter_other_key key key1 h m

/-- One iteration of the loop of `ExtractKeyValuePairsFromFile`: a line without the
separator raises the format error, any other line assigns the text after the first
occurrence of the separator to the text before it. -/
theorem keyValueLine_eq (separator : Str) (m : StrMap) (line : Str)
    (hlen : line.length < npos) :
    keyValueLine separator m line =
      match splitAtFirst separator line with
      | none =>
        Except.error (Error.UnexpectedFormatError
          ("Could not find the separator in the line ".toList ++ line))
      | some (before, after) => Except.ok (m.assign before after) := by
  have hf := findStrFrom_eq separator line 0
  cases hs : splitAtFirst separator line with
  | none =>
    rw [hs] at hf
    simp only [keyValueLine, findStr, hf, if_true]
  | some kv =>
    obtain ⟨k, v⟩ := kv
    rw [hs] at hf
    simp only [Nat.zero_add] at hf
    obtain ⟨e, -⟩ := splitAtFirst_some separator line k v hs
    have hl : k.length + separator.length + v.length < 2 ^ 64 - 1 := by
      have : line.length = k.length + separator.length + v.length := by
        rw [e]; simp only [List.length_append]; omega
      simp only [npos] at hlen
      omega
    have hne : ¬ k.length = npos := by simp only [npos]; omega
    have s1 : sizeAdd k.length separator.length = k.length + separator.length := by
      simp only [sizeAdd]; omega
    have u1 : substr line 0 k.length = Except.ok k := by
      have := substr_after [] line k.length
      simp only [List.nil_append, List.length_nil] at this
      rw [this, e, List.take_left']
      rfl
    have u2 : substr line (k.length + separator.length) npos = Except.ok v := by
      have e2 : line = (k ++ separator) ++ v := by rw [e]; simp
      have := substr_after (k ++ separator) v npos
      rw [← e2, List.length_append] at this
      rw [this, List.take_of_length_le]
      simp only [npos]; omega
    simp only [keyValueLine, findStr, hf, hne, if_false, u1, s1, u2]

/-- The loop of `ExtractKeyValuePairsFromFile` over lines that all hold the separator
succeeds, and a lookup in the result gives the value of the last line with the key, or
what the map held before. -/
theorem keyValueLines_ok (separator : Str) : ∀ (lines : List Str) (m : StrMap),
    (∀ line ∈ lines, line.length < npos) →
    (∀ line ∈ lines, splitAtFirst separator line ≠ none) →
    ∃ m1, keyValueLines separator m lines = Except.ok m1 ∧
      ∀ key, m1.find key =
        match lastValueIn separator lines key with
        | some value => some value
        | none => m.find key := by
  intro lines
  induction lines with
  | nil => intro m _ _; exact ⟨m, rfl, fun key => rfl⟩
  | cons line rest ih =>
    intro m hlen hall
    have hl := keyValueLine_eq separator m line (hlen line (List.mem_cons_self _ _))
    cases hs : splitAtFirst separator line with
    | none => exact absurd hs (hall line (List.mem_cons_self _ _))
    | some kv =>
      obtain ⟨k, v⟩ := kv
      rw [hs] at hl
      obtain ⟨m1, e1, e2⟩ := ih (m.assign k v)
        (fun l hl' => hlen l (List.mem_cons_of_mem _ hl'))
        (fun l hl' => hall l (List.mem_cons_of_mem _ hl'))
      refine ⟨m1, ?_, ?_⟩
      · simp only [keyValueLines, hl, e1]
      · intro key
        rw [e2 key, StrMap.find_after_assign]
        simp only [lastValueIn, hs]
        cases lastValueIn separator rest key with
        | some value => rfl
        | none =>
          by_cases hk : k = key
          · simp only [hk, if_true]
          · simp only [hk, if_false]

/-- The loop of `ExtractKeyValuePairsFromFile` raises the format error when a line does
not hold the separator. -/
theorem keyValueLines_error (separator : Str) : ∀ (lines : List Str) (m : StrMap),
    (∀ line ∈ lines, line.length < npos) →
    (∃ line ∈ lines, splitAtFirst separator line = none) →
    ∃ description,
      keyValueLines separator m lines
        = Except.error (Error.UnexpectedFormatError description) := by
  intro lines
  induction lines with
  | nil => intro m _ h; obtain ⟨l, hl, _⟩ := h; simp at hl
  | cons line rest ih =>
    intro m hlen h
    have hl := keyValueLine_eq separator m line (hlen line (List.mem_cons_self _ _))
    cases hs : splitAtFirst separator line with
    | none =>
      rw [hs] at hl
      exact ⟨"Could not find the separator in the line ".toList ++ line,
        by simp only [keyValueLines, hl]⟩
    | some kv =>
      obtain ⟨k, v⟩ := kv
      rw [hs] at hl
      obtain ⟨l, hmem, hnone⟩ := h
      have hrest : ∃ l ∈ rest, splitAtFirst separator l = none := by
        rcases List.mem_cons.1 hmem with e | e
        · rw [e, hs] at hnone; simp at hnone
        · exact ⟨l, e, hnone⟩
      obtain ⟨d, hd⟩ := ih (m.assign k v)
        (fun l hl' => hlen l (List.mem_cons_of_mem _ hl')) hrest
      exact ⟨d, by simp only [keyValueLines, hl, hd]⟩

/-- No line has the key: no last value. -/
theorem lastValueIn_eq_none (separator key : Str) : ∀ lines : List Str,
    (∀ line ∈ lines, ∀ value, ¬ IsFirstSplit separator line key value) →
    lastValueIn separator lines key = none := by
  intro lines
  induction lines with
  | nil => intro _; rfl
  | cons line rest ih =>
    intro h
    have h1 := ih (fun l hl => h l (List.mem_cons_of_mem _ hl))
    simp only [lastValueIn, h1]
    cases hs : splitAtFirst separator line with
    | none => rfl
    | some kv =>
      obtain ⟨k, v⟩ := kv
      have hk : ¬ k = key := by
        intro e
        subst e
        exact h line (List.mem_cons_self _ _) v (splitAtFirst_some separator line k v hs)
      simp only [hk, if_false]

/-- The last value of a key is the value of the line after which the key does not occur
again. -/
theorem lastValueIn_last (separator line key value : Str) (back : List Str)
    (hline : IsFirstSplit separator line key value)
    (hback : ∀ l ∈ back, ∀ value1, ¬ IsFirstSplit separator l key value1) :
    ∀ front : List Str, lastValueIn separator (front ++ line :: back) key = some value := by
  have hnone := lastValueIn_eq_none separator key back hback
  have hs := (splitAtFirst_eq_some_iff separator line key value).2 hline
  intro front
  induction front with
  | nil => simp only [List.nil_append, lastValueIn, hnone, hs, if_true]
  | cons p ps ih =>
    show lastValueIn separator (p :: (ps ++ line :: back)) key = some value
    simp only [lastValueIn, ih]

/-- C21: for a readable file whose lines have a length a `std::string` can have,
`ExtractKeyValuePairsFromFile` fails if and only if some line does not contain the
separator, and then with the unexpected-format error.  When every line contains the
separator, it returns a map in which a key, the text before the first occurrence of the
separator in a line, has as value the text after that occurrence in the last line with
this key, and which holds no key that no line has. -/
theorem ExtractKeyValuePairsFromFile_spec (file_path content separator : Str)
    (hlen : ∀ line ∈ getlines content, line.length < npos) :
    ((∃ e, ExtractKeyValuePairsFromFile file_path (some content) separator = Except.error e)
      ↔ ∃ line ∈ getlines content, ¬ Occurs separator line) ∧
    (∀ e, ExtractKeyValuePairsFromFile file_path (some content) separator = Except.error e →
      ∃ description, e = Error.UnexpectedFormatError description) ∧
    ((∀ line ∈ getlines content, Occurs separator line) →
      ∃ map, ExtractKeyValuePairsFromFile file_path (some content) separator = Except.ok map ∧
        (∀ front line back key value, getlines content = front ++ line :: back →
          IsFirstSplit separator line key value →
          (∀ l ∈ back, ∀ value1, ¬ IsFirstSplit separator l key value1) →
          map.find key = some value) ∧
        (∀ key, (∀ line ∈ getlines content, ∀ value, ¬ IsFirstSplit separator line key value) →
          map.find key = none)) := by
  have hok : (∀ line ∈ getlines content, Occurs separator line) →
      ∃ map, ExtractKeyValuePairsFromFile file_path (some content) separator = Except.ok map ∧
        ∀ key, map.find key = lastValueIn separator (getlines content) key := by
    intro hall
    obtain ⟨m1, e1, e2⟩ := keyValueLines_ok separator (getlines content) [] hlen
      (fun l hl hn => (splitAtFirst_eq_none_iff separator l).1 hn (hall l hl))
    refine ⟨m1, by simp only [ExtractKeyValuePairsFromFile, e1], fun key => ?_⟩
    rw [e2 key]
    cases lastValueIn separator (getlines content) key <;> rfl
  have herr : (∃ line ∈ getlines content, ¬ Occurs separator line) →
      ∃ description, ExtractKeyValuePairsFromFile file_path (some content) separator
        = Except.error (Error.UnexpectedFormatError description) := by
    rintro ⟨l, hl, hn⟩
    obtain ⟨d, hd⟩ := keyValueLines_error separator (getlines content) [] hlen
      ⟨l, hl, (splitAtFirst_eq_none_iff separator l).2 hn⟩
    exact ⟨d, by simp only [ExtractKeyValuePairsFromFile, hd]⟩
  have hcases : (∃ line ∈ getlines content, ¬ Occurs separator line) ∨
      (∀ line ∈ getlines content, Occurs separator line) := by
    by_cases h : ∀ line ∈ getlines content, Occurs separator line
    · exact Or.inr h
    · left
      push_neg at h
      exact h
  refine ⟨⟨?_, ?_⟩, ?_, ?_⟩
  · rintro ⟨e, he⟩
    rcases hcases with h | h
    · exact h
    · obtain ⟨map, hm, -⟩ := hok h
      rw [hm] at he
      simp at he
  · intro h
    obtain ⟨d, hd⟩ := herr h
    exact ⟨_, hd⟩
  · intro e he
    rcases hcases with h | h
    · obtain ⟨d, hd⟩ := herr h
      rw [hd] at he
      simp only [Except.error.injEq] at he
      exact ⟨d, he.symm⟩
    · obtain ⟨map, hm, -⟩ := hok h
      rw [hm] at he
      simp at he
  · intro hall
    obtain ⟨map, hm, hfind⟩ := hok hall
    refine ⟨map, hm, ?_, ?_⟩
    · intro front line back key value hl hsplit hback
      rw [hfind, hl]
      exact lastValueIn_last separator line key value back hsplit hback front
    · intro key hno
      rw [hfind]
      exact lastValueIn_eq_none separator key (getlines content) hno

/-- C21, at an `/etc/os-release` with the separator `=`: the line
`PRETTY_NAME="Ubuntu 18.04.2 LTS"` gives the key `PRETTY_NAME` and the value with its
quotes, the later line wins for the repeated key `NAME`, and its value is cut at the first
`=` only; a file with a line without `=` raises the format error. -/
theorem ExtractKeyValuePairsFromFile_spec_witness :
    ExtractKeyValuePairsFromFile "/etc/os-release".toList (some osRelease) "=".toList
      = Except.ok [("NAME".toList, "\"Ubuntu=Linux\"".toList),
          ("PRETTY_NAME".toList, "\"Ubuntu 18.04.2 LTS\"".toList)] ∧
    ExtractKeyValuePairsFromFile "/etc/os-release".toList (some osReleaseBroken) "=".toList
      = Except.error (Error.UnexpectedFormatError
          "Could not find the separator in the line Ubuntu 18.04.2 LTS".toList) ∧
    ((∃ e, ExtractKeyValuePairsFromFile "/etc/os-release".toList (some osReleaseBroken)
        "=".toList = Except.error e)
      ↔ ∃ line ∈ getlines osReleaseBroken, ¬ Occurs "=".toList line) :=
  ⟨by decide, by decide,
   (ExtractKeyValuePairsFromFile_spec "/etc/os-release".toList osReleaseBroken "=".toList
     (by decide)).1⟩

end HtopClone
